import Mathlib

/-!
Shallow embedding of `src/arraytainers/arraytainer.py` (the `Arraytainer`
class): a recursive container of numpy arrays that is either list-like or
dict-like at every node.  Leaf arrays are modelled as a shape (list of
dimension sizes) together with row-major integer data; numpy-level failures
(bad reshape, out-of-range index, type errors inside the host library) are
collapsed into a single `external` error kind, while the errors raised by the
arraytainer code itself are modelled by the error taxonomy of its
documentation (type kind, key kind, key-not-found, structural mismatch,
size mismatch).
-/

set_option linter.unreachableTactic false
set_option linter.unusedTactic false
set_option linter.unusedVariables false

namespace Arraytainers

/-- Error kinds. The first five follow the library's own error taxonomy;
`external` stands for any error raised by the host array library or the host
language runtime (numpy reshape and indexing failures, python type errors,
and the recursion limit). -/
inductive Err where
  | typeKind
  | keyKind
  | keyNotFound
  | structuralMismatch
  | sizeMismatch
  | external
  deriving Repr, DecidableEq

/-- A numpy dtype, opaque to this embedding (only the optional `dtype`
attribute that an arraytainer stores is tracked, never the element types of
the arrays themselves). -/
abbrev DType := String

/-- A numpy `ndarray`: a shape and its elements in row-major order.  An array
is well formed when the data length equals the product of the shape. -/
structure Arr where
  shape : List Nat
  data : List Int
  deriving Repr, DecidableEq

/-- Product of a list of dimension sizes. -/
def prodList : List Nat → Nat
  | [] => 1
  | d :: ds => d * prodList ds

/-- `ndarray.size`: the product of the shape. -/
def Arr.size (a : Arr) : Nat := prodList a.shape

/-- Well-formedness of an array: the row-major data has exactly
`prod shape` entries. -/
def Arr.WF (a : Arr) : Prop := a.data.length = prodList a.shape

instance (a : Arr) : Decidable a.WF := by
  unfold Arr.WF; infer_instance

/-- A component of a python tuple used as an index expression: an int, a
slice, `None`, or some other (non-index) object, modelled by a string. -/
inductive SIx where
  | intS (n : Int)
  | sliceS (lo hi : Nat)
  | noneS
  | strS (s : String)
  deriving Repr, DecidableEq

/-- A raw python index object as it may be passed to `__getitem__`: an int,
a slice, `None`, a string (a dict name), or a tuple of components. -/
inductive Ix where
  | intI (n : Int)
  | sliceI (lo hi : Nat)
  | noneI
  | strI (s : String)
  | tupI (xs : List SIx)
  deriving Repr, DecidableEq

/-- A python value usable as a mapping key of an arraytainer (list-like
nodes use the positions `intK 0 .. intK (n-1)`).  `tupleK` models a tuple
key, which the constructor rejects. -/
inductive PyKey where
  | intK (n : Int)
  | strK (s : String)
  | noneK
  | tupleK (xs : List SIx)
  deriving Repr, DecidableEq

/-- Whether a node's contents is a python list or a python dict
(`contents_type` in the source). -/
inductive CType where
  | listT
  | dictT
  deriving Repr, DecidableEq

mutual
/-- A child of an arraytainer: a leaf numpy array, a nested arraytainer, or
a raw (unconverted) python object such as an int or a slice; raw leaves
arise when construction is performed with array conversion disabled, which
is how index trees carrying concrete index objects are built. -/
inductive Node where
  | arr (a : Arr)
  | raw (i : Ix)
  | tree (t : Tainer)
  deriving Repr, DecidableEq

/-- An `Arraytainer`: its contents type (list-like or dict-like), the
optional `_dtype` attribute, and the keyed children.  For a list-like node
the keys of `kids` are the positions `intK 0 .. intK (n-1)`. -/
inductive Tainer where
  | mk (ct : CType) (dt : Option DType) (kids : Kids)
  deriving Repr, DecidableEq

/-- The keyed children of an arraytainer, in iteration order. -/
inductive Kids where
  | nil
  | cons (k : PyKey) (v : Node) (tl : Kids)
  deriving Repr, DecidableEq
end

namespace Tainer

def ct : Tainer → CType
  | .mk c _ _ => c

def dt : Tainer → Option DType
  | .mk _ d _ => d

def kids : Tainer → Kids
  | .mk _ _ ks => ks

end Tainer

namespace Kids

/-- Number of children (`len(self.contents)`). -/
def length : Kids → Nat
  | .nil => 0
  | .cons _ _ tl => 1 + tl.length

/-- The key list, in iteration order (`self.keys()`). -/
def keyList : Kids → List PyKey
  | .nil => []
  | .cons k _ tl => k :: tl.keyList

/-- Lookup of a child by key (`self.contents[key]` for a plain key). -/
def lookup : Kids → PyKey → Option Node
  | .nil, _ => none
  | .cons k v tl, k' => if k = k' then some v else tl.lookup k'

/-- Membership of a key (`key in self.keys()`). -/
def hasKey (ks : Kids) (k : PyKey) : Bool := (ks.lookup k).isSome

end Kids

/-- `len(self)`. -/
def Tainer.length (t : Tainer) : Nat := t.kids.length

/-- `self.keys()` as a list in iteration order. -/
def Tainer.keyList (t : Tainer) : List PyKey := t.kids.keyList

/-- Membership of a key in `self.keys()`. -/
def Tainer.hasKey (t : Tainer) (k : PyKey) : Bool := t.kids.hasKey k

/-- `self.contents[key]` as an optional child. -/
def Tainer.lookup (t : Tainer) (k : PyKey) : Option Node := t.kids.lookup k

/-!
Leaf-level numpy operations used by the indexing engine, the dispatch
engine and the shape utilities.  Errors raised by numpy itself (index out
of range, too many indices, bad reshape size) become `Err.external`.
-/

/-- Split a row-major data list into `d` rows of `sz` elements each: the
subarrays along axis 0. -/
def rowsOf (sz : Nat) : Nat → List Int → List (List Int)
  | 0, _ => []
  | d + 1, xs => xs.take sz :: rowsOf sz d (xs.drop sz)

/-- Integer indexing along axis 0 (`a[n]`): selects one subarray, dropping
the leading axis.  Negative indices and 0-d arrays are numpy errors. -/
def selectAxis0 (a : Arr) (n : Int) : Except Err Arr :=
  match a.shape with
  | [] => .error .external
  | d :: sh =>
    if 0 ≤ n ∧ n < (d : Int) then
      let sz := prodList sh
      .ok ⟨sh, (a.data.drop (n.toNat * sz)).take sz⟩
    else .error .external

/-- Slice indexing along axis 0 (`a[lo:hi]`): keeps the leading axis, with
numpy's clamping semantics (never an error on a positive-rank array). -/
def sliceAxis0 (a : Arr) (lo hi : Nat) : Except Err Arr :=
  match a.shape with
  | [] => .error .external
  | d :: sh =>
    let lo' := min lo d
    let hi' := min hi d
    let sz := prodList sh
    .ok ⟨(hi' - lo') :: sh, (a.data.drop (lo' * sz)).take ((hi' - lo') * sz)⟩

/-- `a[None]`: insert a new leading axis of size 1. -/
def newaxis (a : Arr) : Arr := ⟨1 :: a.shape, a.data⟩

/-- Stack a list of same-shaped arrays along a new leading axis (used for
the sliced rows of a tuple index). -/
def stackArrs : List Arr → Except Err Arr
  | [] => .error .external
  | x :: xs =>
    if xs.all fun y => y.shape = x.shape then
      .ok ⟨(x :: xs).length :: x.shape, ((x :: xs).map Arr.data).flatten⟩
    else .error .external

/-- Multi-axis tuple indexing (`a[i, lo:hi, None, ...]`): each component
consumes or inserts one axis, left to right. -/
def tupIndex (a : Arr) : List SIx → Except Err Arr
  | [] => .ok a
  | .intS n :: rest => do tupIndex (← selectAxis0 a n) rest
  | .sliceS lo hi :: rest =>
    match a.shape with
    | [] => .error .external
    | d :: sh =>
      let lo' := min lo d
      let hi' := min hi d
      let sz := prodList sh
      let rows := rowsOf sz (hi' - lo') (a.data.drop (lo' * sz))
      do stackArrs (← rows.mapM fun r => tupIndex ⟨sh, r⟩ rest)
  | .noneS :: rest => do .ok (newaxis (← tupIndex a rest))
  | .strS _ :: _ => .error .external

/-- Indexing a leaf array by a raw python index object. -/
def arrIndexIx (a : Arr) : Ix → Except Err Arr
  | .intI n => selectAxis0 a n
  | .sliceI lo hi => sliceAxis0 a lo hi
  | .noneI => .ok (newaxis a)
  | .strI _ => .error .external
  | .tupI xs => tupIndex a xs

/-- Indexing a leaf array by another array (`a[b]`): a 0-d integer array
behaves as its scalar, a 1-d integer array performs fancy indexing along
axis 0; anything else is left to numpy as an error. -/
def arrIndexArr (a : Arr) (b : Arr) : Except Err Arr :=
  match b.shape with
  | [] =>
    match b.data with
    | [n] => selectAxis0 a n
    | _ => .error .external
  | [_] => do stackArrs (← b.data.mapM fun n => selectAxis0 a n)
  | _ => .error .external

/-- `np.reshape(a, dims)` with row-major order: succeeds exactly when the
element count is preserved. -/
def arrReshape (a : Arr) (dims : List Nat) : Except Err Arr :=
  if a.data.length = prodList dims then .ok ⟨dims, a.data⟩
  else .error .external

/-- `np.ravel(a)`: the flat 1-d view. -/
def arrRavel (a : Arr) : Arr := ⟨[a.data.length], a.data⟩

/-- `np.squeeze(a)`: remove every axis of size 1. -/
def arrSqueeze (a : Arr) : Arr := ⟨a.shape.filter (· ≠ 1), a.data⟩

/-- `np.concatenate` of a nonempty list of arrays along axis 0 (all with the
same trailing shape). -/
def concatArrs : List Arr → Except Err Arr
  | [] => .error .external
  | x :: xs =>
    match x.shape with
    | [] => .error .external
    | d :: sh =>
      let ds := xs.mapM fun y =>
        match y.shape with
        | d' :: sh' => if sh' = sh then some d' else none
        | [] => none
      match ds with
      | some dims => .ok ⟨(d + dims.sum) :: sh, ((x :: xs).map Arr.data).flatten⟩
      | none => .error .external

/-!
Construction layer: `__init__` with its default flags (`array_conversions`
on, `deepcopy` on; deep copying is the identity in this pure model).
`Raw` is an arbitrary nested python value handed to the constructor.
-/

mutual
/-- A raw python value accepted by the construction layer: a numpy array, a
numeric scalar, some other leaf object (an index object such as a slice),
an already-converted arraytainer, a list, or a dict. -/
inductive Raw where
  | arrR (a : Arr)
  | scalarR (c : Int)
  | otherR (i : Ix)
  | tainerR (t : Tainer)
  | listR (xs : RawL)
  | dictR (xs : RawKV)
  deriving Repr, DecidableEq

/-- Elements of a raw python list. -/
inductive RawL where
  | nil
  | cons (v : Raw) (tl : RawL)
  deriving Repr, DecidableEq

/-- Entries of a raw python dict, in insertion order. -/
inductive RawKV where
  | nil
  | cons (k : PyKey) (v : Raw) (tl : RawKV)
  deriving Repr, DecidableEq
end

/-- Whether any key of a raw dict is a tuple (`_keys_contain_tuple`). -/
def RawKV.keysContainTuple : RawKV → Bool
  | .nil => false
  | .cons k _ tl =>
    match k with
    | .tupleK _ => true
    | _ => tl.keysContainTuple

mutual
/-- The constructor `__init__(contents, dtype=dtype)` with default flags:
reject contents that are neither list-like nor dict-like, reject dicts with
tuple keys, then recursively convert the children
(`_recursive_arraytainer_conversion`). -/
def init : Raw → Option DType → Except Err Tainer
  | .arrR _, _ | .scalarR _, _ | .otherR _, _ | .tainerR _, _ =>
    .error .typeKind
  | .listR xs, dt => do
    .ok (.mk .listT dt (← initList xs dt 0))
  | .dictR kvs, dt =>
    if kvs.keysContainTuple then .error .keyKind
    else do .ok (.mk .dictT dt (← initDict kvs dt))

/-- Conversion of list contents; list-like children are keyed by their
positions. -/
def initList : RawL → Option DType → Nat → Except Err Kids
  | .nil, _, _ => .ok .nil
  | .cons v tl, dt, i => do
    .ok (.cons (.intK i) (← convertChild v dt) (← initList tl dt (i + 1)))

/-- Conversion of dict contents, keeping insertion order. -/
def initDict : RawKV → Option DType → Except Err Kids
  | .nil, _ => .ok .nil
  | .cons k v tl, dt => do
    .ok (.cons k (← convertChild v dt) (← initDict tl dt))

/-- One step of `_recursive_arraytainer_conversion`: an arraytainer child is
left untouched, a list or dict child is recursively converted, and any
other value goes through `create_array`.  `np.array` of a non-numeric
object produces a 0-d object array, which this model keeps as the raw
leaf. -/
def convertChild : Raw → Option DType → Except Err Node
  | .tainerR t, _ => .ok (.tree t)
  | .listR xs, dt => do .ok (.tree (← init (.listR xs) dt))
  | .dictR kvs, dt => do .ok (.tree (← init (.dictR kvs) dt))
  | .arrR a, _ => .ok (.arr a)
  | .scalarR c, _ => .ok (.arr ⟨[], [c]⟩)
  | .otherR i, _ => .ok (.raw i)
end

/-- Whether any key of already-assembled contents is a tuple. -/
def Kids.keysContainTuple : Kids → Bool
  | .nil => false
  | .cons k _ tl =>
    match k with
    | .tupleK _ => true
    | _ => tl.keysContainTuple

/-- Conversion pass of the constructor on contents whose children are
already arrays, arraytainers, or raw leaves (the internal
`self.__class__(item)` calls): arrays go through `create_array` (the
identity here, since array dtypes are not modelled), arraytainers are left
untouched, other leaves keep their 0-d-object-array reading. -/
def Kids.convert : Kids → Kids
  | .nil => .nil
  | .cons k v tl =>
    let v' :=
      match v with
      | .arr a => Node.arr a
      | .tree t => Node.tree t
      | .raw i => Node.raw i
    .cons k v' tl.convert

/-- Values of the contents in order, re-keyed by position
(`list(item.values())` followed by the constructor's enumeration). -/
def Kids.reindex : Kids → Nat → Kids
  | .nil, _ => .nil
  | .cons _ v tl, i => .cons (.intK i) v (tl.reindex (i + 1))

/-- The constructor applied to an internally assembled dict or list of
already-converted children, as in the `self.__class__(item)` calls of the
getters, the dispatch engine and `copy`: a list input is re-keyed by
position, a dict input is checked for tuple keys. -/
def mkFromContents (ct : CType) (dt : Option DType) (kids : Kids) :
    Except Err Tainer :=
  match ct with
  | .listT => .ok (.mk .listT dt (kids.reindex 0).convert)
  | .dictT =>
    if kids.keysContainTuple then .error .keyKind
    else .ok (.mk .dictT dt kids.convert)

mutual
/-- `unpack()`: recursively strip the arraytainer wrappers, yielding the
nested raw lists and dicts of leaf values. -/
def unpack : Tainer → Raw
  | .mk .listT _ ks => .listR (unpackL ks)
  | .mk .dictT _ ks => .dictR (unpackKV ks)

/-- Values of list-like contents, unpacked. -/
def unpackL : Kids → RawL
  | .nil => .nil
  | .cons _ v tl => .cons (unpackNode v) (unpackL tl)

/-- Entries of dict-like contents, unpacked. -/
def unpackKV : Kids → RawKV
  | .nil => .nil
  | .cons k v tl => .cons k (unpackNode v) (unpackKV tl)

/-- A child as `unpack` sees it: arraytainers recurse, everything else is
appended as is. -/
def unpackNode : Node → Raw
  | .arr a => .arrR a
  | .raw i => .otherR i
  | .tree t => unpack t
end

/-- `copy()`: rebuild through the constructor from a shallow copy of the
contents, preserving the dtype (`self.__class__(contents_copy,
deepcopy=False, dtype=self.dtype)`). -/
def Tainer.copy (t : Tainer) : Except Err Tainer :=
  mkFromContents t.ct t.dt t.kids

/-- `deepcopy()`: rebuild through the constructor from a deep copy of the
contents, preserving the dtype; in this pure model it coincides with
`copy`. -/
def Tainer.deepcopy (t : Tainer) : Except Err Tainer :=
  mkFromContents t.ct t.dt t.kids

/-!
Indexing engine, read path (`__getitem__`): the key is classified as an
arraytainer ("parallel index"), an array, a slice-like index object, or a
plain key.
-/

/-- A value passed to `__getitem__` or `__setitem__`: another arraytainer,
a numpy array, or a raw index object. -/
inductive GetKey where
  | tainerK (t : Tainer)
  | arrK (a : Arr)
  | ixK (i : Ix)
  deriving Repr, DecidableEq

/-- `is_slice`: a slice, a tuple whose members are all ints, slices or
`None`, or the bare value `None`. -/
def isSlice : Ix → Bool
  | .sliceI _ _ => true
  | .tupI xs =>
    xs.all fun x =>
      match x with
      | .noneS => true
      | .sliceS _ _ => true
      | .intS _ => true
      | .strS _ => false
  | .noneI => true
  | _ => false

/-- The plain-key reading of a raw index object that was not classified as
slice-like (ints and strings; the slice and `None` cases are unreachable
because `is_slice` claims them first). -/
def ixToPyKey : Ix → PyKey
  | .intI n => .intK n
  | .strI s => .strK s
  | .tupI xs => .tupleK xs
  | .sliceI _ _ => .noneK
  | .noneI => .noneK

/-- `_get_with_regular_key`: direct contents lookup; an absent key is
reported as a key-not-found error listing the valid keys. -/
def getWithRegularKey (t : Tainer) (pk : PyKey) : Except Err Node :=
  match t.lookup pk with
  | some v => .ok v
  | none => .error .keyNotFound

/-- The sub-index stored at a key of a parallel-index arraytainer, as a
value to index a child with (`self.contents[key][val]`). -/
def nodeAsGetKey : Node → GetKey
  | .tree vt => .tainerK vt
  | .arr b => .arrK b
  | .raw i => .ixK i

theorem Kids.lookup_sizeOf :
    ∀ (ks : Kids) (k : PyKey) (v : Node),
      ks.lookup k = some v → sizeOf v < sizeOf ks
  | .nil, _, _, h => by simp [Kids.lookup] at h
  | .cons k' v' tl, k, v, h => by
    rw [Kids.lookup] at h
    by_cases hk : k' = k
    · rw [if_pos hk] at h
      injection h with h
      subst h
      simp
      omega
    · rw [if_neg hk] at h
      have := Kids.lookup_sizeOf tl k v h
      have hs : sizeOf tl < sizeOf (Kids.cons k' v' tl) := by simp
      omega

theorem Tainer.kids_sizeOf (t : Tainer) : sizeOf t.kids < sizeOf t := by
  cases t with
  | mk ct dt ks => simp [Tainer.kids]

theorem Tainer.lookupChild_sizeOf {t : Tainer} {k : PyKey} {v : Node}
    (h : t.lookup k = some v) : sizeOf v < sizeOf t := by
  have h1 := Kids.lookup_sizeOf t.kids k v h
  have h2 := t.kids_sizeOf
  omega

mutual
/-- `__getitem__`: dispatch on the kind of the key — a parallel
arraytainer index, an array index, a slice-like index object, or a plain
key. -/
def getItem (t : Tainer) (key : GetKey) : Except Err Node :=
  match key with
  | .tainerK kt => getWithArraytainer t kt
  | .arrK a => getWithArray t (.arrK a)
  | .ixK i =>
    if isSlice i then getWithArray t (.ixK i)
    else getWithRegularKey t (ixToPyKey i)
termination_by (sizeOf t, 3, 0)

/-- `_get_with_arraytainer`: per `(key, sub_index)` entry of the index
tree, index the corresponding child of `self`, then reassemble through the
constructor (list-like results are re-keyed by position). -/
def getWithArraytainer (t : Tainer) (kt : Tainer) : Except Err Node := do
  let collected ← gwaKids t kt.kids
  (mkFromContents t.ct none collected).map Node.tree
termination_by (sizeOf t, 2, 0)

/-- The per-entry loop of `_get_with_arraytainer`: an absent key fails with
key-not-found; a leaf-array child combined with a tree-shaped sub-index
fails with the key-kind error; otherwise `self.contents[key][val]`. -/
def gwaKids (t : Tainer) (ks : Kids) : Except Err Kids :=
  match ks with
  | .nil => .ok .nil
  | .cons k val tl =>
    match _h : t.lookup k with
    | none => .error .keyNotFound
    | some child =>
      match child, val with
      | .arr _, .tree _ => .error .keyKind
      | _, _ => do
        .ok (.cons k (← applyIdxNode child (nodeAsGetKey val)) (← gwaKids t tl))
termination_by (sizeOf t, 1, sizeOf ks)
decreasing_by
  all_goals simp_wf
  all_goals
    first
      | (apply Prod.Lex.left
         omega)
      | (apply Prod.Lex.left
         exact Tainer.lookupChild_sizeOf (by assumption))
      | (apply Prod.Lex.left
         have h1 : sizeOf (Node.tree s) < sizeOf t :=
           Tainer.lookupChild_sizeOf (by assumption)
         have h2 : sizeOf s < sizeOf (Node.tree s) := by simp
         omega)
      | (apply Prod.Lex.left
         exact Tainer.kids_sizeOf t)
      | (apply Prod.Lex.right
         apply Prod.Lex.left
         omega)
      | (apply Prod.Lex.right
         apply Prod.Lex.right
         omega)
      | (apply Prod.Lex.right
         apply Prod.Lex.right
         simp)


/-- `_get_with_array`: apply the same raw index to every child and
reassemble through the constructor over all of `self`'s keys. -/
def getWithArray (t : Tainer) (key : GetKey) : Except Err Node := do
  let collected ← gwArrKids key t.kids
  (mkFromContents t.ct none collected).map Node.tree
termination_by (sizeOf t, 2, 0)
decreasing_by
  all_goals simp_wf
  all_goals
    first
      | (apply Prod.Lex.left
         omega)
      | (apply Prod.Lex.left
         exact Tainer.lookupChild_sizeOf (by assumption))
      | (apply Prod.Lex.left
         have h1 : sizeOf (Node.tree s) < sizeOf t :=
           Tainer.lookupChild_sizeOf (by assumption)
         have h2 : sizeOf s < sizeOf (Node.tree s) := by simp
         omega)
      | (apply Prod.Lex.left
         exact Tainer.kids_sizeOf t)
      | (apply Prod.Lex.right
         apply Prod.Lex.left
         omega)
      | (apply Prod.Lex.right
         apply Prod.Lex.right
         omega)
      | (apply Prod.Lex.right
         apply Prod.Lex.right
         simp)


/-- The per-child loop of `_get_with_array`, keeping the keys. -/
def gwArrKids (key : GetKey) (ks : Kids) : Except Err Kids :=
  match ks with
  | .nil => .ok .nil
  | .cons k v tl => do
    .ok (.cons k (← applyIdxNode v key) (← gwArrKids key tl))
termination_by (sizeOf ks, 0, 0)

/-- Indexing one child by a raw index value (`self.contents[key][...]`): a
leaf array uses numpy indexing, a nested arraytainer recurses through
`__getitem__`, and a raw leaf is a host-level type error. -/
def applyIdxNode (v : Node) (key : GetKey) : Except Err Node :=
  match v with
  | .arr a =>
    match key with
    | .arrK b => (arrIndexArr a b).map .arr
    | .ixK i => (arrIndexIx a i).map .arr
    | .tainerK _ => .error .external
  | .tree s => getItem s key
  | .raw _ => .error .external
termination_by (sizeOf v, 0, 0)
end

/-!
Indexing engine, write path (`__setitem__`, `append`).  The source loops
mutate `self.contents[key]` in place while iterating; since the keys of an
arraytainer are always distinct (dict keys are unique, list keys are the
positions), reading every child from the pre-update contents and applying
the per-key updates afterwards is observationally the same, and is how the
loops are modelled here.
-/

/-- `_convert_to_array_or_arraytainer`: arrays and arraytainers pass
through, lists and dicts go through the constructor with `self`'s dtype,
anything else goes through `create_array`. -/
def convertVal (v : Raw) (dt : Option DType) : Except Err Node :=
  match v with
  | .arrR a => .ok (.arr a)
  | .tainerR t => .ok (.tree t)
  | .listR xs => (init (.listR xs) dt).map .tree
  | .dictR kvs => (init (.dictR kvs) dt).map .tree
  | .scalarR c => .ok (.arr ⟨[], [c]⟩)
  | .otherR i => .ok (.raw i)

/-- A node as a raw value, for re-entering `__setitem__` on a child
(`self[key][mask] = value`); `_convert_to_array_or_arraytainer` is the
identity on each image. -/
def nodeToRaw : Node → Raw
  | .arr a => .arrR a
  | .tree t => .tainerR t
  | .raw i => .otherR i

/-- Replace the value at a key if present, insert at the end otherwise
(python dict assignment). -/
def Kids.setAssoc : Kids → PyKey → Node → Kids
  | .nil, k, v => .cons k v .nil
  | .cons k' v' tl, k, v =>
    if k' = k then .cons k' v tl else .cons k' v' (tl.setAssoc k v)

/-- Replace the value at a list position. -/
def Kids.replaceAt : Kids → Nat → Node → Kids
  | .nil, _, _ => .nil
  | .cons k' v' tl, 0, v => .cons k' v tl
  | .cons k' v' tl, n + 1, v => .cons k' v' (tl.replaceAt n v)

/-- Apply a batch of keyed updates in order (each update key is present in
the original contents in every reachable use). -/
def Kids.applyUpdates : Kids → Kids → Kids
  | ks, .nil => ks
  | ks, .cons k v tl => (ks.setAssoc k v).applyUpdates tl

/-- `_set_with_regular_key`: direct contents assignment.  A dict accepts
any key; a list accepts an in-range (possibly negative) int position,
re-raises an out-of-range position as the key-kind error telling the caller
to append instead, and lets any other key type escape as a host-level type
error. -/
def setWithRegularKey (t : Tainer) (pk : PyKey) (v : Node) :
    Except Err Tainer :=
  match t.ct with
  | .dictT => .ok (.mk .dictT t.dt (t.kids.setAssoc pk v))
  | .listT =>
    match pk with
    | .intK i =>
      let n := t.kids.length
      let j : Int := if i < 0 then i + n else i
      if 0 ≤ j ∧ j < (n : Int) then
        .ok (.mk .listT t.dt (t.kids.replaceAt j.toNat v))
      else .error .keyKind
    | _ => .error .external

/-- Masked leaf assignment `a[key] = b` for the fragment of numpy
assignment this model supports: an int (or 0-d integer array) or slice
along axis 0, with a value of exactly the selected shape or a 0-d value
broadcast across it; everything else is left to numpy as an error. -/
def arrSetIx (a : Arr) (key : GetKey) (v : Node) : Except Err Arr :=
  match v with
  | .arr b =>
    let intCase : Int → Except Err Arr := fun n =>
      match a.shape with
      | [] => .error .external
      | d :: sh =>
        if 0 ≤ n ∧ n < (d : Int) then
          let sz := prodList sh
          let repl : Option (List Int) :=
            if b.shape = sh then some b.data
            else if b.shape = [] then
              match b.data with
              | [c] => some (List.replicate sz c)
              | _ => none
            else none
          match repl with
          | some seg =>
            .ok ⟨a.shape,
              a.data.take (n.toNat * sz) ++ seg ++
                a.data.drop ((n.toNat + 1) * sz)⟩
          | none => .error .external
        else .error .external
    match key with
    | .ixK (.intI n) => intCase n
    | .arrK idx =>
      match idx.shape, idx.data with
      | [], [n] => intCase n
      | _, _ => .error .external
    | .ixK (.sliceI lo hi) =>
      match a.shape with
      | [] => .error .external
      | d :: sh =>
        let lo' := min lo d
        let hi' := min hi d
        let sz := prodList sh
        let len := (hi' - lo') * sz
        let repl : Option (List Int) :=
          if b.shape = (hi' - lo') :: sh then some b.data
          else if b.shape = [] then
            match b.data with
            | [c] => some (List.replicate len c)
            | _ => none
          else none
        match repl with
        | some seg =>
          .ok ⟨a.shape, a.data.take (lo' * sz) ++ seg ++
            a.data.drop (lo' * sz + len)⟩
        | none => .error .external
    | _ => .error .external
  | _ => .error .external

mutual
/-- `__setitem__`: normalize the value, then dispatch on the key kind —
array or slice-like index, parallel arraytainer index, or plain key. -/
def setItem (t : Tainer) (key : GetKey) (v : Raw) : Except Err Tainer := do
  let v' ← convertVal v t.dt
  match key with
  | .arrK a => setWithArray t (.arrK a) v'
  | .ixK i =>
    if isSlice i then setWithArray t (.ixK i) v'
    else setWithRegularKey t (ixToPyKey i) v'
  | .tainerK kt => setWithArraytainer t kt v'
termination_by (sizeOf t, 3, 0)

/-- `_set_with_array`: if the value is an arraytainer, write its per-key
slices into the matching children; otherwise broadcast the one value into
every child's slice. -/
def setWithArray (t : Tainer) (key : GetKey) (v : Node) :
    Except Err Tainer :=
  match v with
  | .tree nv => do
    let updates ← swaUpdates t key nv.kids
    .ok (.mk t.ct t.dt (t.kids.applyUpdates updates))
  | _ => do
    let updates ← swbUpdates t key v t.kids
    .ok (.mk t.ct t.dt (t.kids.applyUpdates updates))
termination_by (sizeOf t, 2, 0)
decreasing_by
  all_goals simp_wf
  all_goals
    first
      | (apply Prod.Lex.left
         omega)
      | (apply Prod.Lex.left
         exact Tainer.lookupChild_sizeOf (by assumption))
      | (apply Prod.Lex.left
         have h1 : sizeOf (Node.tree s) < sizeOf t :=
           Tainer.lookupChild_sizeOf (by assumption)
         have h2 : sizeOf s < sizeOf (Node.tree s) := by simp
         omega)
      | (apply Prod.Lex.left
         exact Tainer.kids_sizeOf t)
      | (apply Prod.Lex.right
         apply Prod.Lex.left
         omega)
      | (apply Prod.Lex.right
         apply Prod.Lex.right
         omega)
      | (apply Prod.Lex.right
         apply Prod.Lex.right
         simp)


/-- The per-key loop of `_set_with_array` for an arraytainer value: every
key of the value must exist in `self`, an array child requires an array
value slice (key-not-found otherwise), and a tree child re-enters
`__setitem__`. -/
def swaUpdates (t : Tainer) (key : GetKey) (ks : Kids) : Except Err Kids :=
  match ks with
  | .nil => .ok .nil
  | .cons k nvk tl =>
    match _h : t.lookup k with
    | none => .error .keyNotFound
    | some child =>
      match child with
      | .arr a =>
        match nvk with
        | .arr b => do
          .ok (.cons k (.arr (← arrSetIx a key (.arr b)))
            (← swaUpdates t key tl))
        | _ => .error .keyNotFound
      | .tree s => do
        .ok (.cons k (.tree (← setItem s key (nodeToRaw nvk)))
          (← swaUpdates t key tl))
      | .raw _ => .error .external
termination_by (sizeOf t, 1, sizeOf ks)
decreasing_by
  all_goals simp_wf
  all_goals
    first
      | (apply Prod.Lex.left
         omega)
      | (apply Prod.Lex.left
         exact Tainer.lookupChild_sizeOf (by assumption))
      | (apply Prod.Lex.left
         have h1 : sizeOf (Node.tree s) < sizeOf t :=
           Tainer.lookupChild_sizeOf (by assumption)
         have h2 : sizeOf s < sizeOf (Node.tree s) := by simp
         omega)
      | (apply Prod.Lex.left
         exact Tainer.kids_sizeOf t)
      | (apply Prod.Lex.right
         apply Prod.Lex.left
         omega)
      | (apply Prod.Lex.right
         apply Prod.Lex.right
         omega)
      | (apply Prod.Lex.right
         apply Prod.Lex.right
         simp)


/-- The per-key loop of `_set_with_array` for a non-arraytainer value:
broadcast the same value into every child. -/
def swbUpdates (t : Tainer) (key : GetKey) (v : Node) (ks : Kids) :
    Except Err Kids :=
  match ks with
  | .nil => .ok .nil
  | .cons k child tl =>
    match child with
    | .arr a => do
      .ok (.cons k (.arr (← arrSetIx a key v)) (← swbUpdates t key v tl))
    | .tree s => do
      .ok (.cons k (.tree (← setItem s key (nodeToRaw v)))
        (← swbUpdates t key v tl))
    | .raw _ => .error .external
termination_by (sizeOf ks, 0, 0)
decreasing_by
  all_goals simp_wf
  all_goals
    first
      | (apply Prod.Lex.left
         omega)
      | (apply Prod.Lex.left
         exact Tainer.lookupChild_sizeOf (by assumption))
      | (apply Prod.Lex.left
         have h1 : sizeOf (Node.tree s) < sizeOf t :=
           Tainer.lookupChild_sizeOf (by assumption)
         have h2 : sizeOf s < sizeOf (Node.tree s) := by simp
         omega)
      | (apply Prod.Lex.left
         exact Tainer.kids_sizeOf t)
      | (apply Prod.Lex.right
         apply Prod.Lex.left
         omega)
      | (apply Prod.Lex.right
         apply Prod.Lex.right
         omega)
      | (apply Prod.Lex.right
         apply Prod.Lex.right
         simp)


/-- `_set_with_arraytainer`: per `(key, mask)` entry of the parallel index,
branch on whether the child and the value are trees or leaf arrays; the
combinations with a raw leaf on either side fall through as no-ops, exactly
as the source's if/elif chain does. -/
def setWithArraytainer (t : Tainer) (kt : Tainer) (v : Node) :
    Except Err Tainer := do
  let updates ← swatUpdates t v kt.kids
  .ok (.mk t.ct t.dt (t.kids.applyUpdates updates))
termination_by (sizeOf t, 2, 0)

/-- The per-entry loop of `_set_with_arraytainer`. -/
def swatUpdates (t : Tainer) (v : Node) (ks : Kids) : Except Err Kids :=
  match ks with
  | .nil => .ok .nil
  | .cons k mask tl =>
    match _h : t.lookup k with
    | none => .error .keyNotFound
    | some child =>
      match child, v with
      | .tree s, .tree nv =>
        match nv.lookup k with
        | none => .error .keyNotFound
        | some nvk => do
          .ok (.cons k (.tree (← setItem s (nodeAsGetKey mask) (nodeToRaw nvk)))
            (← swatUpdates t v tl))
      | .tree s, .arr b => do
        .ok (.cons k (.tree (← setItem s (nodeAsGetKey mask) (.arrR b)))
          (← swatUpdates t v tl))
      | .arr a, .arr b => do
        .ok (.cons k (.arr (← arrSetIx a (nodeAsGetKey mask) (.arr b)))
          (← swatUpdates t v tl))
      | .arr a, .tree nv =>
        match nv.lookup k with
        | some (.arr b) => do
          .ok (.cons k (.arr (← arrSetIx a (nodeAsGetKey mask) (.arr b)))
            (← swatUpdates t v tl))
        | _ => .error .keyNotFound
      | _, _ => swatUpdates t v tl
termination_by (sizeOf t, 1, sizeOf ks)
decreasing_by
  all_goals simp_wf
  all_goals
    first
      | (apply Prod.Lex.left
         omega)
      | (apply Prod.Lex.left
         exact Tainer.lookupChild_sizeOf (by assumption))
      | (apply Prod.Lex.left
         have h1 : sizeOf (Node.tree s) < sizeOf t :=
           Tainer.lookupChild_sizeOf (by assumption)
         have h2 : sizeOf s < sizeOf (Node.tree s) := by simp
         omega)
      | (apply Prod.Lex.left
         exact Tainer.kids_sizeOf t)
      | (apply Prod.Lex.right
         apply Prod.Lex.left
         omega)
      | (apply Prod.Lex.right
         apply Prod.Lex.right
         omega)
      | (apply Prod.Lex.right
         apply Prod.Lex.right
         simp)

end

/-- `append(new_val)` without a key path: normalize the value, reject
dict-like receivers (a host-level type error telling the caller to use
update), and push onto the end of a list-like receiver. -/
def Tainer.append (t : Tainer) (v : Raw) : Except Err Tainer := do
  let v' ← convertVal v t.dt
  match t.ct with
  | .dictT => .error .external
  | .listT =>
    .ok (.mk .listT t.dt (t.kids.applyUpdates
      (.cons (.intK t.kids.length) v' .nil)))

/-!
Operation dispatch engine (`__array_function__` / `__array_ufunc__` →
`_manage_func_call`).  A dispatched call's positional arguments are
modelled as a list of `FArg`; keyword arguments are handled by the source
with exactly the same scanning and projection code and are not modelled
separately.  The operation itself is a `LeafFn`: the host-library kernel
applied once the arguments contain no arraytainer.  The host dispatch hook
is modelled as in the source's own scanner: a call re-enters the engine
exactly when its argument list still contains an arraytainer.  A per-key
re-entry whose arguments have not become strictly shallower corresponds to
the source recursing without progress until the python recursion limit, and
is modelled as the host-level error.
-/

/-- One positional argument of a dispatched call: an array or arraytainer
operand, a plain scalar, or a tuple of arguments (which may contain further
arraytainers, as in concatenate-like calls). -/
inductive FArg where
  | val (n : Node)
  | scalarF (c : Int)
  | tup (xs : List FArg)

/-- A leaf-level host-library operation, applied to arguments that contain
no arraytainer. -/
abbrev LeafFn := List FArg → Except Err Arr

/-- `_list_arraytainers_in_args`: collect every arraytainer operand in
encounter order, descending into tuples. -/
def listTainersInArgs : List FArg → List Tainer
  | [] => []
  | a :: rest =>
    (match a with
     | .val (.tree t) => [t]
     | .tup xs => listTainersInArgs xs
     | _ => []) ++ listTainersInArgs rest
termination_by args => sizeOf args

/-- `max(arraytainer_list, key=len)`: the first operand with the greatest
number of direct children. -/
def maxByLen (t : Tainer) : List Tainer → Tainer
  | [] => t
  | t' :: rest =>
    if t'.length > t.length then maxByLen t' rest else maxByLen t rest

/-- `set(a.keys()).issubset(set(ref.keys()))`. -/
def keysSubset (a ref : Tainer) : Bool :=
  a.keyList.all fun k => ref.hasKey k

/-- `_check_arg_compatability`: every operand must share the reference's
contents type and have a key set included in the reference's key set;
either failure is the structural-mismatch error. -/
def checkArgCompat (ts : List Tainer) (ref : Tainer) : Except Err Unit :=
  match ts with
  | [] => .ok ()
  | a :: rest =>
    if a.ct ≠ ref.ct then .error .structuralMismatch
    else if ¬ keysSubset a ref then .error .structuralMismatch
    else checkArgCompat rest ref

/-- Membership of a key in `_get_shared_keyset` (the intersection of all
operand key sets). -/
def inAllKeysets (ts : List Tainer) (k : PyKey) : Bool :=
  ts.all fun t => t.hasKey k

/-- A plain key as a raw index object, for the `arg[key]` projection of
`_prepare_func_args` (which goes through full `__getitem__`
classification). -/
def pykeyToIx : PyKey → Ix
  | .intK n => .intI n
  | .strK s => .strI s
  | .noneK => .noneI
  | .tupleK xs => .tupI xs

/-- `_prepare_func_args`: per-key substitution of every argument — an
arraytainer operand contributes `arg[key]` when it has the key and is
omitted otherwise, tuples are projected recursively with a projected
1-tuple unwrapped to its sole element, and anything else passes through. -/
def prepareFuncArgs (args : List FArg) (k : PyKey) : Except Err (List FArg) :=
  match args with
  | [] => .ok []
  | a :: rest =>
    match a with
    | .val (.tree t) =>
      if t.hasKey k then do
        let item ← getItem t (.ixK (pykeyToIx k))
        let restP ← prepareFuncArgs rest k
        .ok (.val item :: restP)
      else prepareFuncArgs rest k
    | .tup xs => do
      let inner ← prepareFuncArgs xs k
      let restP ← prepareFuncArgs rest k
      match inner with
      | [x] => .ok (x :: restP)
      | _ => .ok (.tup inner :: restP)
    | other => do
      let restP ← prepareFuncArgs rest k
      .ok (other :: restP)
termination_by sizeOf args

mutual
/-- Nesting depth of arraytainers inside a node (a leaf is 0). -/
def nodeDepth : Node → Nat
  | .arr _ => 0
  | .raw _ => 0
  | .tree t => tainerDepth t

/-- Nesting depth of an arraytainer (at least 1). -/
def tainerDepth : Tainer → Nat
  | .mk _ _ ks => 1 + kidsDepth ks

/-- Greatest child depth. -/
def kidsDepth : Kids → Nat
  | .nil => 0
  | .cons _ v tl => max (nodeDepth v) (kidsDepth tl)
end

mutual
/-- Depth of the deepest arraytainer inside one argument. -/
def fargDepth : FArg → Nat
  | .val n => nodeDepth n
  | .scalarF _ => 0
  | .tup xs => fargsDepth xs
termination_by a => sizeOf a

/-- Depth of the deepest arraytainer inside an argument list. -/
def fargsDepth : List FArg → Nat
  | [] => 0
  | a :: rest => max (fargDepth a) (fargsDepth rest)
termination_by args => sizeOf args
end

mutual
/-- Application of a host-library operation: when the arguments contain an
arraytainer the host extension hook hands the call to the dispatch engine,
otherwise the host kernel runs directly. -/
def applyFunc (f : LeafFn) (args : List FArg) : Except Err Node :=
  match listTainersInArgs args with
  | [] => (f args).map .arr
  | _ :: _ => manageFuncCall f args
termination_by (fargsDepth args, 2, 0)

/-- `_manage_func_call`: scan the arguments for arraytainer operands, pick
the largest as reference, validate compatibility, then for every shared key
substitute the per-key arguments and call the operation, assembling the
results over a deep copy of the reference's contents and rebuilding through
the constructor (with no dtype). -/
def manageFuncCall (f : LeafFn) (args : List FArg) : Except Err Node :=
  match listTainersInArgs args with
  | [] => .error .external
  | t :: ts' =>
    let ref := maxByLen t ts'
    do
      checkArgCompat (t :: ts') ref
      let newKids ← dispatchKids f args (t :: ts') ref.kids
      (mkFromContents ref.ct none newKids).map .tree
termination_by (fargsDepth args, 1, 0)

/-- One per-key call of `_manage_func_call`: substitute the arguments for
this key and invoke the operation.  A per-key call whose arguments are not
strictly shallower than the original ones corresponds to the source
re-dispatching without progress until the python recursion limit, modelled
as the host-level error. -/
def dispatchStep (f : LeafFn) (args : List FArg) (k : PyKey) :
    Except Err Node := do
  let prepped ← prepareFuncArgs args k
  if h : fargsDepth prepped < fargsDepth args then applyFunc f prepped
  else .error .external
termination_by (fargsDepth args, 0, 0)
decreasing_by
  all_goals simp_wf
  all_goals
    first
      | (apply Prod.Lex.left
         omega)
      | (apply Prod.Lex.right
         apply Prod.Lex.left
         omega)

/-- The per-key loop of `_manage_func_call` over the reference's contents:
a key shared by every operand is replaced by the operation applied to the
per-key arguments; any other key keeps the reference's (deep-copied)
value. -/
def dispatchKids (f : LeafFn) (args : List FArg) (ts : List Tainer)
    (ks : Kids) : Except Err Kids :=
  match ks with
  | .nil => .ok .nil
  | .cons k v tl =>
    if inAllKeysets ts k then do
      .ok (.cons k (← dispatchStep f args k) (← dispatchKids f args ts tl))
    else do
      .ok (.cons k v (← dispatchKids f args ts tl))
termination_by (fargsDepth args, 0, sizeOf ks)
decreasing_by
  all_goals simp_wf
  all_goals
    first
      | (apply Prod.Lex.left
         omega)
      | (apply Prod.Lex.right
         apply Prod.Lex.left
         omega)
      | (apply Prod.Lex.right
         apply Prod.Lex.right
         omega)
      | (apply Prod.Lex.right
         apply Prod.Lex.right
         simp)
end

/-!
Aggregate and shape utilities (`shape`, `sum`, `flatten`, `reshape`,
`list_arrays`) and the alternate constructor `from_array`.
-/

mutual
/-- `list_arrays` / `_recursively_get_arrays`: depth-first leaf collection
(non-arraytainer values are appended as they are). -/
def listArraysT : Tainer → List Node
  | .mk _ _ ks => listArraysK ks

/-- Depth-first leaf collection over contents. -/
def listArraysK : Kids → List Node
  | .nil => []
  | .cons _ v tl =>
    (match v with
     | .tree s => listArraysT s
     | other => [other]) ++ listArraysK tl
end

mutual
/-- The `shape` property: mirror every leaf's shape tuple into a tree of
the same layout; the shape tuples are turned into 1-d arrays by the
constructor's `create_array`, the tree is rebuilt without a dtype.  A raw
leaf has no shape attribute — a host-level error. -/
def shapeT : Tainer → Except Err Tainer
  | .mk ct _ ks => do .ok (.mk ct none (← shapeKids ks))

/-- Per-child shapes. -/
def shapeKids : Kids → Except Err Kids
  | .nil => .ok .nil
  | .cons k v tl => do
    let v' ← match v with
      | .arr a => .ok (Node.arr ⟨[a.shape.length], a.shape.map Int.ofNat⟩)
      | .tree s => do .ok (Node.tree (← shapeT s))
      | .raw _ => .error .external
    .ok (.cons k v' (← shapeKids tl))
end

/-- The leaf kernel of `np.sum`: a 0-d array holding the total of the
elements. -/
def sumF : LeafFn := fun args =>
  match args with
  | [.val (.arr a)] => .ok ⟨[], [a.data.sum]⟩
  | _ => .error .external

/-- The `sum` method: `np.sum(self)` through the dispatch engine yields a
tree of per-leaf 0-d sums, and python `sum` adds up its collected leaf
arrays. -/
def Tainer.sumScalar (t : Tainer) : Except Err Int := do
  match ← applyFunc sumF [.val (.tree t)] with
  | .tree u =>
    (listArraysT u).foldlM
      (fun acc n =>
        match n with
        | .arr a => .ok (acc + a.data.sum)
        | _ => .error .external)
      (0 : Int)
  | _ => .error .external

/-- The leaf kernel of `np.ravel` (row-major order). -/
def ravelF : LeafFn := fun args =>
  match args with
  | [.val (.arr a)] => .ok (arrRavel a)
  | _ => .error .external

/-- The leaf kernel of `np.squeeze`. -/
def squeezeF : LeafFn := fun args =>
  match args with
  | [.val (.arr a)] => .ok (arrSqueeze a)
  | _ => .error .external

/-- The leaf kernel of `np.reshape` (row-major order), with the target
shape given as a 1-d integer array (how a shape tuple survives the
constructor). -/
def reshapeF : LeafFn := fun args =>
  match args with
  | [.val (.arr a), .val (.arr s)] => arrReshape a (s.data.map Int.toNat)
  | _ => .error .external

/-- `flatten`: `np.squeeze(np.ravel(self))` through the dispatch engine,
then collect the leaves depth-first, promote 0-d leaves to 1-d with
`elem[None]`, and concatenate. -/
def Tainer.flatten (t : Tainer) : Except Err Arr := do
  let r1 ← applyFunc ravelF [.val (.tree t)]
  let r2 ← applyFunc squeezeF [.val r1]
  match r2 with
  | .tree u => do
    let elems ← (listArraysT u).mapM fun n =>
      match n with
      | .arr a => .ok (if a.shape = [] then newaxis a else a)
      | _ => (.error .external : Except Err Arr)
    concatArrs elems
  | _ => .error .external

/-- `np.reshape(flat, shape_tree)` with the dispatch engine engaged: per
shared key the whole flat array and the per-key shape are passed to the
host reshape kernel. -/
def reshapeDispatch (a : Arr) (shapes : Tainer) : Except Err Node :=
  applyFunc reshapeF [.val (.arr a), .val (.tree shapes)]

mutual
/-- `_from_vector`: walk the shape tree in key order, consuming
`prod(shape)` contiguous elements of the flat vector for each leaf and
reshaping them (row-major); numpy's slice clamping means an exhausted
vector surfaces only as a reshape failure. -/
def fromVector (vector : Arr) (shapes : Tainer) (idx : Nat) :
    Except Err (Raw × Nat) := do
  let (items, idx') ← fromVectorKids vector shapes.kids idx
  match shapes.ct with
  | .dictT => .ok (.dictR items.fst, idx')
  | .listT => .ok (.listR items.snd, idx')
termination_by (sizeOf shapes, 1)
decreasing_by
  all_goals simp_wf
  exact Prod.Lex.left _ _ (Tainer.kids_sizeOf shapes)

/-- The per-entry loop of `_from_vector`, returning the contents both as
dict entries and as list values (the source builds a dict and converts to
a list of its values when the shape tree is list-like). -/
def fromVectorKids (vector : Arr) (ks : Kids) (idx : Nat) :
    Except Err ((RawKV × RawL) × Nat) :=
  match ks with
  | .nil => .ok ((.nil, .nil), idx)
  | .cons k v tl => do
    let (r, idx') ←
      match v with
      | .tree sub => fromVector vector sub idx
      | .arr s =>
        let dims := s.data.map Int.toNat
        let num := prodList dims
        let seg := (vector.data.drop idx).take num
        do
          let a ← arrReshape ⟨[seg.length], seg⟩ dims
          .ok ((.arrR a : Raw), idx + num)
      | .raw _ => .error .external
    let ((restKV, restL), idx'') ← fromVectorKids vector tl idx'
    .ok ((.cons k r restKV, .cons r restL), idx'')
termination_by (sizeOf ks, 0)
decreasing_by
  all_goals simp_wf
  all_goals
    first
      | (apply Prod.Lex.left
         omega)
      | (apply Prod.Lex.right
         omega)
end

/-- `from_array(array, shapes)` for an arraytainer shape tree (row-major
order): the source computes `output_size = shapes.sum()`, compares it with
`array.size` and builds a ValueError for a mismatch but never raises it, so
no size check takes effect; the flat vector is then unpacked along the
shape tree and rebuilt through the constructor. -/
def fromArray (array : Arr) (shapes : Tainer) : Except Err Tainer := do
  let _output_size ← shapes.sumScalar
  let vector := arrRavel array
  let (contents, _) ← fromVector vector shapes 0
  init contents none

mutual
/-- The total element count a shape tree requests: the sum over all leaf
shapes of the product of that shape's entries.  This is the quantity the
documentation says `from_array` validates against the flat array's length
(note the source instead computes `shapes.sum()`, the sum of all shape
entries, and discards the comparison). -/
def shapesTotalElems : Tainer → Nat
  | .mk _ _ ks => shapesTotalElemsK ks

/-- Per-entry total of `shapesTotalElems`. -/
def shapesTotalElemsK : Kids → Nat
  | .nil => 0
  | .cons _ v tl =>
    (match v with
     | .arr s => prodList (s.data.map Int.toNat)
     | .tree sub => shapesTotalElems sub
     | .raw _ => 0) + shapesTotalElemsK tl
end

/-!
The executable definitions double as the evaluation rules for concrete
inputs; making them simp lemmas lets closed instances be settled by `simp`.
-/

attribute [simp] prodList Arr.size Tainer.ct Tainer.dt Tainer.kids
  Kids.length Kids.keyList Kids.lookup Kids.hasKey Tainer.length
  Tainer.keyList Tainer.hasKey Tainer.lookup rowsOf selectAxis0 sliceAxis0
  newaxis stackArrs tupIndex arrIndexIx arrIndexArr arrReshape arrRavel
  arrSqueeze concatArrs RawKV.keysContainTuple init initList initDict
  convertChild Kids.keysContainTuple Kids.convert Kids.reindex
  mkFromContents unpack unpackL unpackKV unpackNode Tainer.copy
  Tainer.deepcopy isSlice ixToPyKey getWithRegularKey nodeAsGetKey getItem
  getWithArraytainer gwaKids getWithArray gwArrKids applyIdxNode convertVal
  nodeToRaw Kids.setAssoc Kids.replaceAt Kids.applyUpdates
  setWithRegularKey arrSetIx setItem setWithArray swaUpdates swbUpdates
  setWithArraytainer swatUpdates Tainer.append listTainersInArgs maxByLen
  keysSubset checkArgCompat inAllKeysets pykeyToIx prepareFuncArgs
  nodeDepth tainerDepth kidsDepth fargDepth fargsDepth applyFunc
  manageFuncCall dispatchStep dispatchKids listArraysT listArraysK shapeT
  shapeKids sumF
  Tainer.sumScalar ravelF squeezeF reshapeF Tainer.flatten reshapeDispatch
  fromVector fromVectorKids fromArray shapesTotalElems shapesTotalElemsK

/-- Reduction of a monadic bind on a successful result. -/
theorem bindOk {α β : Type} (a : α) (g : α → Except Err β) :
    (Bind.bind (Except.ok a) g : Except Err β) = g a := rfl

/-- Reduction of a monadic bind on an error. -/
theorem bindErr {α β : Type} (e : Err) (g : α → Except Err β) :
    (Bind.bind (Except.error e : Except Err α) g : Except Err β) =
      .error e := rfl

/-- Reduction of `Except.map` on a successful result. -/
theorem mapOk {α β : Type} (g : α → β) (a : α) :
    (Except.map g (Except.ok a) : Except Err β) = .ok (g a) := rfl

/-- Reduction of `Except.map` on an error. -/
theorem mapErr {α β : Type} (g : α → β) (e : Err) :
    (Except.map g (Except.error e : Except Err α) : Except Err β) =
      .error e := rfl

/-- Reduction of `pure` into the `Except` monad. -/
theorem pureOk {α : Type} (a : α) :
    (Pure.pure a : Except Err α) = .ok a := rfl

attribute [simp] bindOk bindErr mapOk mapErr pureOk

/-!
Well-formedness predicates.  Trees reachable through the constructor have
distinct keys (python dict keys are unique, list keys are the positions),
list-like contents keyed by consecutive positions, and no tuple keys.
-/

/-- Keys that are neither `None` nor tuples: the ones whose `__getitem__`
classification is a plain lookup. -/
def PyKey.isRegular : PyKey → Bool
  | .intK _ => true
  | .strK _ => true
  | _ => false

/-- All top-level keys regular. -/
def Kids.allRegularKeys : Kids → Bool
  | .nil => true
  | .cons k _ tl => k.isRegular && tl.allRegularKeys

/-- No repeated top-level key. -/
def Kids.noDupKeys : Kids → Bool
  | .nil => true
  | .cons k _ tl => !tl.hasKey k && tl.noDupKeys

/-- List-like contents keyed `intK i, intK (i+1), ...`. -/
def Kids.listCanonical : Kids → Nat → Bool
  | .nil, _ => true
  | .cons k _ tl, i => k = PyKey.intK i && tl.listCanonical (i + 1)

/-- Contents entries as a list of pairs. -/
def Kids.entriesList : Kids → List (PyKey × Node)
  | .nil => []
  | .cons k v tl => (k, v) :: tl.entriesList

mutual
/-- A data tree: every leaf is an array, list-like contents are keyed by
consecutive positions, and dict-like contents have no tuple key — the shape
of any tree produced by default construction from arrays, scalars, lists
and dicts. -/
def Tainer.isData : Tainer → Bool
  | .mk ct _ ks =>
    (match ct with
     | .listT => ks.listCanonical 0
     | .dictT => !ks.keysContainTuple) && ks.allData

/-- All children are data. -/
def Kids.allData : Kids → Bool
  | .nil => true
  | .cons _ v tl => v.isData && tl.allData

/-- A data child: a leaf array or a data tree. -/
def Node.isData : Node → Bool
  | .arr _ => true
  | .raw _ => false
  | .tree t => t.isData
end

mutual
/-- The tree with every `_dtype` attribute cleared, at every level: the
image of a round trip through `unpack` and the default constructor. -/
def Tainer.stripDt : Tainer → Tainer
  | .mk ct _ ks => .mk ct none ks.stripDt

/-- Children with dtypes cleared. -/
def Kids.stripDt : Kids → Kids
  | .nil => .nil
  | .cons k v tl => .cons k v.stripDt tl.stripDt

/-- A child with dtypes cleared. -/
def Node.stripDt : Node → Node
  | .arr a => .arr a
  | .raw i => .raw i
  | .tree t => .tree t.stripDt
end

mutual
/-- Equality of two trees in structure (keying mode and keys at every
node) and in leaf values, ignoring the dtype attributes. -/
def structLeafEqT : Tainer → Tainer → Bool
  | .mk ct _ ks, .mk ct' _ ks' => ct = ct' && structLeafEqK ks ks'

/-- Pairwise `structLeafEq` of contents. -/
def structLeafEqK : Kids → Kids → Bool
  | .nil, .nil => true
  | .cons k v tl, .cons k' v' tl' =>
    k = k' && structLeafEqN v v' && structLeafEqK tl tl'
  | _, _ => false

/-- `structLeafEq` of two children. -/
def structLeafEqN : Node → Node → Bool
  | .arr a, .arr b => a = b
  | .raw i, .raw j => i = j
  | .tree t, .tree u => structLeafEqT t u
  | _, _ => false
end

attribute [simp] PyKey.isRegular Kids.allRegularKeys Kids.noDupKeys
  Kids.listCanonical Kids.entriesList Tainer.isData Kids.allData
  Node.isData Tainer.stripDt Kids.stripDt Node.stripDt structLeafEqT
  structLeafEqK structLeafEqN

/-- The constructor's conversion pass on already-converted contents is the
identity (array dtypes are not modelled, so `create_array` on an array
changes nothing). -/
theorem Kids.convert_eq_self : ∀ ks : Kids, ks.convert = ks
  | .nil => rfl
  | .cons k v tl => by
    cases v <;> simp [Kids.convert, Kids.convert_eq_self tl]

/-- Re-keying canonical list contents starting at the same position changes
nothing. -/
theorem Kids.reindex_eq_self :
    ∀ (ks : Kids) (i : Nat), ks.listCanonical i = true → ks.reindex i = ks
  | .nil, _, _ => rfl
  | .cons k v tl, i, h => by
    simp only [Kids.listCanonical, Bool.and_eq_true, decide_eq_true_eq] at h
    simp [Kids.reindex, h.1, Kids.reindex_eq_self tl (i + 1) h.2]

/-- `mkFromContents` on well-shaped contents is a plain node constructor. -/
theorem mkFromContents_eq (ct : CType) (dt : Option DType) (ks : Kids)
    (hlist : ct = .listT → ks.listCanonical 0 = true)
    (hdict : ct = .dictT → ks.keysContainTuple = false) :
    mkFromContents ct dt ks = .ok (.mk ct dt ks) := by
  cases ct with
  | listT =>
    simp [mkFromContents, Kids.reindex_eq_self ks 0 (hlist rfl),
      Kids.convert_eq_self]
  | dictT => simp [mkFromContents, hdict rfl, Kids.convert_eq_self]

/-- The dtype of a `mkFromContents` result is the dtype passed in. -/
theorem mkFromContents_dt {ct : CType} {dt : Option DType} {ks : Kids}
    {u : Tainer} (h : mkFromContents ct dt ks = .ok u) : u.dt = dt := by
  cases ct with
  | listT =>
    simp only [mkFromContents] at h
    injection h with h
    subst h
    rfl
  | dictT =>
    simp only [mkFromContents] at h
    by_cases hk : ks.keysContainTuple = true
    · rw [if_pos hk] at h; exact absurd h (by simp)
    · rw [if_neg hk] at h
      injection h with h
      subst h
      rfl

/-- The contents type of a `mkFromContents` result is the one passed in. -/
theorem mkFromContents_ct {ct : CType} {dt : Option DType} {ks : Kids}
    {u : Tainer} (h : mkFromContents ct dt ks = .ok u) : u.ct = ct := by
  cases ct with
  | listT =>
    simp only [mkFromContents] at h
    injection h with h
    subst h
    rfl
  | dictT =>
    simp only [mkFromContents] at h
    by_cases hk : ks.keysContainTuple = true
    · rw [if_pos hk] at h; exact absurd h (by simp)
    · rw [if_neg hk] at h
      injection h with h
      subst h
      rfl

/-!
Claim C1.  `from_array` is documented to fail with the size-mismatch error,
checked up front, whenever the total element count requested by the shape
tree (the sum over leaf shapes of the product of the shape's entries)
differs from the flat array's length.  The source computes a size
`shapes.sum()` (which is moreover the sum of the shape entries, not of
their products) and constructs the `ValueError` — but the `raise` keyword
is missing, so the exception is built and discarded and no check takes
effect.
-/

/-- C1: the claimed up-front size check never fires.  The shape tree below
requests 3 elements while the flat array has 5, yet `from_array` succeeds,
returning a tree built from the first 3 elements and silently dropping the
remaining 2. -/
theorem c1_fromArray_size_check_never_raised :
    shapesTotalElems
        (.mk .dictT none (.cons (.strK "a") (.arr ⟨[1], [3]⟩) .nil)) = 3 ∧
    Arr.size ⟨[5], [1, 2, 3, 4, 5]⟩ = 5 ∧
    fromArray ⟨[5], [1, 2, 3, 4, 5]⟩
        (.mk .dictT none (.cons (.strK "a") (.arr ⟨[1], [3]⟩) .nil)) =
      .ok (.mk .dictT none (.cons (.strK "a") (.arr ⟨[3], [1, 2, 3]⟩) .nil)) := by
  refine ⟨by simp, by simp, ?_⟩
  simp [Except.bind, Except.map, Bind.bind, Pure.pure, Except.pure]

/-!
Claim C8.  Construction fails with the key-kind error whenever a mapping
key anywhere in the raw input is a tuple.  Conversion recurses through raw
lists and dicts and skips already-converted arraytainer children, so "any
depth" means any dict reachable through raw nesting; a tuple key is also
the only possible failure below the top level.
-/

mutual
/-- Whether some mapping key of the raw input, at any depth reachable
through raw lists and dicts, is a tuple (already-converted arraytainer
children are skipped, as the conversion pass skips them). -/
def Raw.hasTupleKey : Raw → Bool
  | .arrR _ => false
  | .scalarR _ => false
  | .otherR _ => false
  | .tainerR _ => false
  | .listR xs => xs.hasTupleKey
  | .dictR kvs => kvs.keysContainTuple || kvs.hasTupleKeyInside

/-- Tuple-key search through a raw list's elements. -/
def RawL.hasTupleKey : RawL → Bool
  | .nil => false
  | .cons v tl => v.hasTupleKey || tl.hasTupleKey

/-- Tuple-key search through a raw dict's values. -/
def RawKV.hasTupleKeyInside : RawKV → Bool
  | .nil => false
  | .cons _ v tl => v.hasTupleKey || tl.hasTupleKeyInside
end

attribute [simp] Raw.hasTupleKey RawL.hasTupleKey RawKV.hasTupleKeyInside

mutual
/-- Child conversion cannot fail on tuple-free input. -/
theorem convertChild_ok_of_noTuple :
    ∀ (v : Raw) (dt : Option DType), v.hasTupleKey = false →
      ∃ n, convertChild v dt = .ok n
  | .arrR a, dt, _ => ⟨.arr a, by simp [convertChild]⟩
  | .scalarR c, dt, _ => ⟨.arr ⟨[], [c]⟩, by simp [convertChild]⟩
  | .otherR i, dt, _ => ⟨.raw i, by simp [convertChild]⟩
  | .tainerR t, dt, _ => ⟨.tree t, by simp [convertChild]⟩
  | .listR xs, dt, h => by
    simp only [Raw.hasTupleKey] at h
    obtain ⟨ks, hks⟩ := initList_ok_of_noTuple xs dt 0 h
    exact ⟨.tree (.mk .listT dt ks), by
      simp [convertChild, init, hks, Except.bind, Except.map]⟩
  | .dictR kvs, dt, h => by
    simp only [Raw.hasTupleKey, Bool.or_eq_false_iff] at h
    obtain ⟨ks, hks⟩ := initDict_ok_of_noTuple kvs dt h.2
    exact ⟨.tree (.mk .dictT dt ks), by
      simp [convertChild, init, h.1, hks, Except.bind, Except.map]⟩

/-- List-contents conversion cannot fail on tuple-free input. -/
theorem initList_ok_of_noTuple :
    ∀ (xs : RawL) (dt : Option DType) (i : Nat), xs.hasTupleKey = false →
      ∃ ks, initList xs dt i = .ok ks
  | .nil, dt, i, _ => ⟨.nil, by simp [initList]⟩
  | .cons v tl, dt, i, h => by
    simp only [RawL.hasTupleKey, Bool.or_eq_false_iff] at h
    obtain ⟨n, hn⟩ := convertChild_ok_of_noTuple v dt h.1
    obtain ⟨ks, hks⟩ := initList_ok_of_noTuple tl dt (i + 1) h.2
    exact ⟨.cons (.intK i) n ks, by
      simp [initList, hn, hks, Except.bind]⟩

/-- Dict-contents conversion cannot fail on input with tuple-free values. -/
theorem initDict_ok_of_noTuple :
    ∀ (kvs : RawKV) (dt : Option DType), kvs.hasTupleKeyInside = false →
      ∃ ks, initDict kvs dt = .ok ks
  | .nil, dt, _ => ⟨.nil, by simp [initDict]⟩
  | .cons k v tl, dt, h => by
    simp only [RawKV.hasTupleKeyInside, Bool.or_eq_false_iff] at h
    obtain ⟨n, hn⟩ := convertChild_ok_of_noTuple v dt h.1
    obtain ⟨ks, hks⟩ := initDict_ok_of_noTuple tl dt h.2
    exact ⟨.cons k n ks, by simp [initDict, hn, hks, Except.bind]⟩
end

mutual
/-- Child conversion fails with the key-kind error whenever the child
holds a tuple mapping key. -/
theorem convertChild_err_of_tuple :
    ∀ (v : Raw) (dt : Option DType), v.hasTupleKey = true →
      convertChild v dt = .error .keyKind
  | .listR xs, dt, h => by
    simp only [Raw.hasTupleKey] at h
    simp [convertChild, init, initList_err_of_tuple xs dt 0 h, Except.bind,
      Except.map]
  | .dictR kvs, dt, h => by
    simp only [Raw.hasTupleKey, Bool.or_eq_true] at h
    by_cases htop : kvs.keysContainTuple = true
    · simp [convertChild, init, htop, Except.map]
    · have hin : kvs.hasTupleKeyInside = true := by
        rcases h with h | h
        · exact absurd h htop
        · exact h
      simp [convertChild, init, htop, initDict_err_of_tuple kvs dt hin,
        Except.bind, Except.map]

/-- List-contents conversion fails with the key-kind error whenever some
element holds a tuple mapping key. -/
theorem initList_err_of_tuple :
    ∀ (xs : RawL) (dt : Option DType) (i : Nat), xs.hasTupleKey = true →
      initList xs dt i = .error .keyKind
  | .cons v tl, dt, i, h => by
    simp only [RawL.hasTupleKey, Bool.or_eq_true] at h
    by_cases hv : v.hasTupleKey = true
    · simp [initList, convertChild_err_of_tuple v dt hv, Except.bind]
    · have htl : tl.hasTupleKey = true := by
        rcases h with h | h
        · exact absurd h hv
        · exact h
      obtain ⟨n, hn⟩ :=
        convertChild_ok_of_noTuple v dt (Bool.not_eq_true _ ▸ hv)
      simp [initList, hn, initList_err_of_tuple tl dt (i + 1) htl,
        Except.bind]

/-- Dict-contents conversion fails with the key-kind error whenever some
value holds a tuple mapping key. -/
theorem initDict_err_of_tuple :
    ∀ (kvs : RawKV) (dt : Option DType), kvs.hasTupleKeyInside = true →
      initDict kvs dt = .error .keyKind
  | .cons k v tl, dt, h => by
    simp only [RawKV.hasTupleKeyInside, Bool.or_eq_true] at h
    by_cases hv : v.hasTupleKey = true
    · simp [initDict, convertChild_err_of_tuple v dt hv, Except.bind]
    · have htl : tl.hasTupleKeyInside = true := by
        rcases h with h | h
        · exact absurd h hv
        · exact h
      obtain ⟨n, hn⟩ :=
        convertChild_ok_of_noTuple v dt (Bool.not_eq_true _ ▸ hv)
      simp [initDict, hn, initDict_err_of_tuple tl dt htl, Except.bind]
end

/-- C8: constructing from raw input any of whose mapping keys, at any depth
reachable through raw nesting, is a tuple fails with the key-kind error,
and no tree is produced. -/
theorem c8_tuple_key_rejected (r : Raw) (dt : Option DType)
    (h : r.hasTupleKey = true) : init r dt = .error .keyKind := by
  cases r with
  | arrR a => simp at h
  | scalarR c => simp at h
  | otherR i => simp at h
  | tainerR t => simp at h
  | listR xs =>
    simp only [Raw.hasTupleKey] at h
    simp [init, initList_err_of_tuple xs dt 0 h, Except.bind]
  | dictR kvs =>
    simp only [Raw.hasTupleKey, Bool.or_eq_true] at h
    by_cases htop : kvs.keysContainTuple = true
    · simp [init, htop]
    · have hin : kvs.hasTupleKeyInside = true := by
        rcases h with h | h
        · exact absurd h htop
        · exact h
      simp [init, htop, initDict_err_of_tuple kvs dt hin, Except.bind]

/-- C8 witness: constructing from the mapping with the single tuple key
`(1,2)` fails with the key-kind error. -/
theorem c8_tuple_key_rejected_witness :
    Raw.hasTupleKey
        (.dictR (.cons (.tupleK [.intS 1, .intS 2]) (.scalarR 5) .nil)) =
      true ∧
    init (.dictR (.cons (.tupleK [.intS 1, .intS 2]) (.scalarR 5) .nil))
        none = .error .keyKind :=
  ⟨by simp,
   c8_tuple_key_rejected
     (.dictR (.cons (.tupleK [.intS 1, .intS 2]) (.scalarR 5) .nil)) none
     (by simp)⟩

/-!
Claim C7.  List growth discipline: assignment past the end of a list-like
tree fails with the key-kind error (the re-raised IndexError telling the
caller to append), while `append` succeeds and grows the length by one.
-/

/-- Inserting a fresh key grows the contents by one entry; replacing an
existing key does not. -/
theorem Kids.setAssoc_length :
    ∀ (ks : Kids) (k : PyKey) (v : Node),
      (ks.setAssoc k v).length =
        if ks.hasKey k then ks.length else ks.length + 1
  | .nil, k, v => by simp [Kids.setAssoc, Kids.length, Kids.hasKey,
      Kids.lookup]
  | .cons k' v' tl, k, v => by
    by_cases hk : k' = k
    · simp [Kids.setAssoc, hk, Kids.length, Kids.hasKey, Kids.lookup]
    · have ih := Kids.setAssoc_length tl k v
      simp only [Kids.setAssoc, if_neg hk, Kids.length, ih]
      have hkey : (Kids.cons k' v' tl).hasKey k = tl.hasKey k := by
        simp [Kids.hasKey, Kids.lookup, if_neg hk]
      rw [hkey]
      by_cases hm : tl.hasKey k = true
      · simp only [Kids.hasKey] at hm
        simp [hm]
      · simp only [Kids.hasKey] at hm
        simp [hm]
        omega

/-- Canonical positions start at `i`, so any position at or past `i + n`
is absent. -/
theorem Kids.listCanonical_lookup_none :
    ∀ (ks : Kids) (i j : Nat), ks.listCanonical i = true →
      i + ks.length ≤ j → ks.lookup (.intK j) = none
  | .nil, _, _, _, _ => rfl
  | .cons k v tl, i, j, h, hj => by
    simp only [Kids.listCanonical, Bool.and_eq_true, decide_eq_true_eq] at h
    simp only [Kids.length] at hj
    have hne : k ≠ PyKey.intK j := by
      rw [h.1]
      intro hcon
      injection hcon with hcon
      omega
    simp only [Kids.lookup, if_neg hne]
    exact Kids.listCanonical_lookup_none tl (i + 1) j h.2 (by omega)

/-- C7: on a list-like tree of length `n` with canonical positions,
assignment through `set` at any position `i ≥ n` fails with the key-kind
error (so the tree is not grown), while `append` succeeds and produces
length `n + 1`. -/
theorem c7_list_growth_discipline (dt : Option DType) (ks : Kids)
    (v : Raw) (i : Nat)
    (hcanon : ks.listCanonical 0 = true)
    (hlen : ks.length ≤ i)
    (hconv : ∃ v', convertVal v dt = .ok v') :
    setItem (.mk .listT dt ks) (.ixK (.intI i)) v = .error .keyKind ∧
    ∃ t', Tainer.append (.mk .listT dt ks) v = .ok t' ∧
      t'.length = ks.length + 1 := by
  obtain ⟨v', hv'⟩ := hconv
  constructor
  · have hneg : ¬((i : Int) < 0) := by omega
    have hnot : ¬((0 : Int) ≤ (i : Int) ∧ (i : Int) < (ks.length : Int)) := by
      omega
    simp only [setItem, Tainer.dt, hv', bindOk]
    simp [setWithRegularKey, Tainer.ct, Tainer.kids, Tainer.length, hneg,
      hnot]
    exact hlen
  · refine ⟨.mk .listT dt (ks.setAssoc (.intK ks.length) v'), ?_, ?_⟩
    · simp only [Tainer.append, Tainer.dt, hv', bindOk]
      simp [Tainer.ct, Tainer.kids, Kids.applyUpdates, Tainer.length]
    · have hnk := Kids.listCanonical_lookup_none ks 0 ks.length hcanon
        (by omega)
      simp [Tainer.length, Tainer.kids, Kids.setAssoc_length, Kids.hasKey,
        hnk]

/-- C7 witness: on the list-like tree `[array 7]` of length 1, `set` at
position 2 fails with the key-kind error while `append` yields length 2. -/
theorem c7_list_growth_discipline_witness :
    setItem (.mk .listT none (.cons (.intK 0) (.arr ⟨[], [7]⟩) .nil))
        (.ixK (.intI 2)) (.scalarR 9) = .error .keyKind ∧
    ∃ t', Tainer.append
        (.mk .listT none (.cons (.intK 0) (.arr ⟨[], [7]⟩) .nil))
        (.scalarR 9) = .ok t' ∧
      t'.length = 2 :=
  c7_list_growth_discipline none (.cons (.intK 0) (.arr ⟨[], [7]⟩) .nil)
    (.scalarR 9) 2 (by simp) (by simp [Kids.length])
    ⟨.arr ⟨[], [9]⟩, by simp [convertVal]⟩

/-!
Claim C9.  Dtype propagation: every `self.__class__(...)` call that
assembles an operation or indexing result passes no dtype, so the result's
dtype attribute is `None`; only `copy()` and `deepcopy()` pass
`dtype=self.dtype` through.
-/

/-- Inversion of a successful monadic bind. -/
theorem bind_eq_ok_inv {α β : Type} {x : Except Err α} {g : α → Except Err β}
    {b : β} (h : Bind.bind x g = .ok b) : ∃ a, x = .ok a ∧ g a = .ok b := by
  cases x with
  | ok a => exact ⟨a, rfl, h⟩
  | error e => rw [bindErr] at h; exact absurd h (by simp)

/-- Inversion of a successful `Except.map`. -/
theorem map_eq_ok_inv {α β : Type} {g : α → β} {x : Except Err α} {b : β}
    (h : Except.map g x = .ok b) : ∃ a, x = .ok a ∧ g a = b := by
  cases x with
  | ok a =>
    rw [mapOk] at h
    injection h with h
    exact ⟨a, rfl, h⟩
  | error e => rw [mapErr] at h; exact absurd h (by simp)

/-- C9: trees assembled by the dispatch engine, by broadcast (array/slice)
get and by parallel-index get are constructed without a dtype, so their
dtype attribute is `None`; `copy()` and `deepcopy()` rebuild with the
original's dtype. -/
theorem c9_dtype_propagation :
    (∀ (f : LeafFn) (args : List FArg) (u : Tainer),
      manageFuncCall f args = .ok (.tree u) → u.dt = none) ∧
    (∀ (t : Tainer) (key : GetKey) (u : Tainer),
      getWithArray t key = .ok (.tree u) → u.dt = none) ∧
    (∀ (t kt : Tainer) (u : Tainer),
      getWithArraytainer t kt = .ok (.tree u) → u.dt = none) ∧
    (∀ (t u : Tainer), t.copy = .ok u → u.dt = t.dt) ∧
    (∀ (t u : Tainer), t.deepcopy = .ok u → u.dt = t.dt) := by
  refine ⟨?_, ?_, ?_, ?_, ?_⟩
  · intro f args u h
    rw [manageFuncCall] at h
    rcases hsc : listTainersInArgs args with _ | ⟨t0, ts'⟩
    · rw [hsc] at h
      exact absurd h (by simp)
    · rw [hsc] at h
      obtain ⟨_, _, h⟩ := bind_eq_ok_inv h
      obtain ⟨ks', _, h⟩ := bind_eq_ok_inv h
      obtain ⟨w, hw, hmap⟩ := map_eq_ok_inv h
      injection hmap with hmap
      subst hmap
      exact mkFromContents_dt hw
  · intro t key u h
    rw [getWithArray] at h
    obtain ⟨ks', _, h⟩ := bind_eq_ok_inv h
    obtain ⟨w, hw, hmap⟩ := map_eq_ok_inv h
    injection hmap with hmap
    subst hmap
    exact mkFromContents_dt hw
  · intro t kt u h
    rw [getWithArraytainer] at h
    obtain ⟨ks', _, h⟩ := bind_eq_ok_inv h
    obtain ⟨w, hw, hmap⟩ := map_eq_ok_inv h
    injection hmap with hmap
    subst hmap
    exact mkFromContents_dt hw
  · intro t u h
    exact mkFromContents_dt h
  · intro t u h
    exact mkFromContents_dt h

/-- C9 witness: on a dict-like tree with dtype `float32`, a dispatched
`np.sum`, a broadcast `[None]` get and a parallel-index get all yield
dtype-`None` trees, while `copy` and `deepcopy` preserve the dtype. -/
theorem c9_dtype_propagation_witness :
    (manageFuncCall sumF
        [.val (.tree (.mk .dictT (some "float32")
          (.cons (.strK "a") (.arr ⟨[2], [1, 2]⟩) .nil)))] =
      .ok (.tree (.mk .dictT none
        (.cons (.strK "a") (.arr ⟨[], [3]⟩) .nil))) ∧
      Tainer.dt (.mk .dictT none
        (.cons (.strK "a") (.arr ⟨[], [3]⟩) .nil)) = none) ∧
    (getWithArray (.mk .dictT (some "float32")
        (.cons (.strK "a") (.arr ⟨[2], [1, 2]⟩) .nil)) (.ixK .noneI) =
      .ok (.tree (.mk .dictT none
        (.cons (.strK "a") (.arr ⟨[1, 2], [1, 2]⟩) .nil))) ∧
      Tainer.dt (.mk .dictT none
        (.cons (.strK "a") (.arr ⟨[1, 2], [1, 2]⟩) .nil)) = none) ∧
    (getWithArraytainer (.mk .dictT (some "float32")
        (.cons (.strK "a") (.arr ⟨[2], [1, 2]⟩) .nil))
        (.mk .dictT none (.cons (.strK "a") (.raw (.intI 0)) .nil)) =
      .ok (.tree (.mk .dictT none
        (.cons (.strK "a") (.arr ⟨[], [1]⟩) .nil))) ∧
      Tainer.dt (.mk .dictT none
        (.cons (.strK "a") (.arr ⟨[], [1]⟩) .nil)) = none) ∧
    (Tainer.copy (.mk .dictT (some "float32")
        (.cons (.strK "a") (.arr ⟨[2], [1, 2]⟩) .nil)) =
      .ok (.mk .dictT (some "float32")
        (.cons (.strK "a") (.arr ⟨[2], [1, 2]⟩) .nil)) ∧
      Tainer.dt (.mk .dictT (some "float32")
        (.cons (.strK "a") (.arr ⟨[2], [1, 2]⟩) .nil)) = some "float32") := by
  have h1 : manageFuncCall sumF
      [.val (.tree (.mk .dictT (some "float32")
        (.cons (.strK "a") (.arr ⟨[2], [1, 2]⟩) .nil)))] =
      .ok (.tree (.mk .dictT none
        (.cons (.strK "a") (.arr ⟨[], [3]⟩) .nil))) := by
    simp
  have h2 : getWithArray (.mk .dictT (some "float32")
      (.cons (.strK "a") (.arr ⟨[2], [1, 2]⟩) .nil)) (.ixK .noneI) =
      .ok (.tree (.mk .dictT none
        (.cons (.strK "a") (.arr ⟨[1, 2], [1, 2]⟩) .nil))) := by
    simp
  have h3 : getWithArraytainer (.mk .dictT (some "float32")
      (.cons (.strK "a") (.arr ⟨[2], [1, 2]⟩) .nil))
      (.mk .dictT none (.cons (.strK "a") (.raw (.intI 0)) .nil)) =
      .ok (.tree (.mk .dictT none
        (.cons (.strK "a") (.arr ⟨[], [1]⟩) .nil))) := by
    simp
  have h4 : Tainer.copy (.mk .dictT (some "float32")
      (.cons (.strK "a") (.arr ⟨[2], [1, 2]⟩) .nil)) =
      .ok (.mk .dictT (some "float32")
        (.cons (.strK "a") (.arr ⟨[2], [1, 2]⟩) .nil)) := by
    simp
  refine ⟨⟨h1, c9_dtype_propagation.1 _ _ _ h1⟩,
    ⟨h2, c9_dtype_propagation.2.1 _ _ _ h2⟩,
    ⟨h3, c9_dtype_propagation.2.2.1 _ _ _ h3⟩,
    ⟨h4, ?_⟩⟩
  have h5 := c9_dtype_propagation.2.2.2.1 _ _ h4
  rw [h5]
  rfl

/-!
Key-list characterizations: the canonical-positions and tuple-key checks
depend only on the key list, so they transfer to any contents with the
same keys (as the per-key loops produce).
-/

/-- Canonical consecutive positions, as a predicate on a key list. -/
def listCanonicalKeys : List PyKey → Nat → Bool
  | [], _ => true
  | k :: tl, i => k = PyKey.intK i && listCanonicalKeys tl (i + 1)

/-- Tuple-key search, as a predicate on a key list. -/
def keysContainTupleKeys : List PyKey → Bool
  | [] => false
  | k :: tl =>
    match k with
    | .tupleK _ => true
    | _ => keysContainTupleKeys tl

/-- `listCanonical` only looks at the keys. -/
theorem Kids.listCanonical_eq_keys :
    ∀ (ks : Kids) (i : Nat),
      ks.listCanonical i = listCanonicalKeys ks.keyList i
  | .nil, _ => rfl
  | .cons k v tl, i => by
    simp [Kids.listCanonical, Kids.keyList, listCanonicalKeys,
      Kids.listCanonical_eq_keys tl (i + 1)]

/-- `keysContainTuple` only looks at the keys. -/
theorem Kids.keysContainTuple_eq_keys :
    ∀ ks : Kids, ks.keysContainTuple = keysContainTupleKeys ks.keyList
  | .nil => rfl
  | .cons k v tl => by
    cases k <;>
      simp [Kids.keysContainTuple, Kids.keyList, keysContainTupleKeys,
        Kids.keysContainTuple_eq_keys tl]

/-!
Claim C10.  The bare value `None`, and any tuple of ints, slices and
`None`, is classified by `is_slice` as a broadcast index: `__getitem__`
routes it to `_get_with_array`, which applies the same raw index to every
child and assembles a tree over all of `self`'s keys — it is never treated
as a plain key lookup, even in a dict-like tree where `None` is a legal
mapping key.
-/

/-- The per-child broadcast loop succeeds with the per-child results, keys
unchanged, when every child accepts the index. -/
theorem gwArrKids_ok :
    ∀ (key : GetKey) (ks : Kids),
      (∀ k v, ks.lookup k = some v → ∃ r, applyIdxNode v key = .ok r) →
      ks.noDupKeys = true →
      ∃ ks', gwArrKids key ks = .ok ks' ∧ ks'.keyList = ks.keyList ∧
        ∀ k v, ks.lookup k = some v →
          ∃ r, applyIdxNode v key = .ok r ∧ ks'.lookup k = some r
  | key, .nil, _, _ => ⟨.nil, by rw [gwArrKids], rfl, by intro k v h; simp at h⟩
  | key, .cons k0 v0 tl, hok, hnd => by
    simp only [Kids.noDupKeys, Bool.and_eq_true, Bool.not_eq_true'] at hnd
    obtain ⟨r0, hr0⟩ := hok k0 v0 (by simp)
    have htl : ∀ k v, tl.lookup k = some v →
        ∃ r, applyIdxNode v key = .ok r := by
      intro k v hkv
      refine hok k v ?_
      have hne : k0 ≠ k := by
        intro hkk
        subst hkk
        have : tl.hasKey k0 = true := by simp [Kids.hasKey, hkv]
        rw [this] at hnd
        exact absurd hnd.1 (by simp)
      simp [Kids.lookup, if_neg hne, hkv]
    obtain ⟨tl', htl', hkeys, hlook⟩ := gwArrKids_ok key tl htl hnd.2
    refine ⟨.cons k0 r0 tl', ?_, ?_, ?_⟩
    · rw [gwArrKids]
      simp [hr0, htl']
    · simp [Kids.keyList, hkeys]
    · intro k v hkv
      by_cases hk : k0 = k
      · subst hk
        rw [Kids.lookup, if_pos rfl] at hkv
        injection hkv with hkv
        subst hkv
        exact ⟨r0, hr0, by rw [Kids.lookup, if_pos rfl]⟩
      · rw [Kids.lookup, if_neg hk] at hkv
        obtain ⟨r, hr, hl⟩ := hlook k v hkv
        exact ⟨r, hr, by rw [Kids.lookup, if_neg hk]; exact hl⟩

/-- C10: `None` and int/slice/`None` tuples are slice-classified;
`__getitem__` on such a key is broadcast indexing, never a plain lookup —
and when every child accepts the raw index the result is a dtype-free tree
over all of `self`'s keys whose child at `k` is `self.contents[k]` indexed
by the raw index. -/
theorem c10_none_and_tuples_broadcast :
    isSlice .noneI = true ∧
    (∀ xs : List SIx, (∀ s, SIx.strS s ∉ xs) → isSlice (.tupI xs) = true) ∧
    (∀ (t : Tainer) (i : Ix), isSlice i = true →
      getItem t (.ixK i) = getWithArray t (.ixK i)) ∧
    (∀ (t : Tainer) (i : Ix), isSlice i = true →
      (∀ k v, t.lookup k = some v →
        ∃ r, applyIdxNode v (.ixK i) = .ok r) →
      t.kids.noDupKeys = true →
      (t.ct = .listT → t.kids.listCanonical 0 = true) →
      (t.ct = .dictT → t.kids.keysContainTuple = false) →
      ∃ u, getItem t (.ixK i) = .ok (.tree u) ∧ u.ct = t.ct ∧
        u.dt = none ∧ u.keyList = t.keyList ∧
        ∀ k v, t.lookup k = some v →
          ∃ r, applyIdxNode v (.ixK i) = .ok r ∧ u.lookup k = some r) := by
  refine ⟨by simp, ?_, ?_, ?_⟩
  · intro xs hxs
    simp only [isSlice, List.all_eq_true]
    intro x hx
    cases x with
    | strS s => exact absurd hx (hxs s)
    | intS n => simp
    | sliceS lo hi => simp
    | noneS => simp
  · intro t i h
    rw [getItem, if_pos h]
  · intro t i hslice hok hnd hlist hdict
    obtain ⟨tct, tdt, tks⟩ := t
    simp only [Tainer.kids, Tainer.ct, Tainer.lookup, Tainer.keyList]
      at hok hnd hlist hdict ⊢
    obtain ⟨ks', hks', hkeys, hlook⟩ := gwArrKids_ok (.ixK i) tks hok hnd
    have hmk : mkFromContents tct none ks' = .ok (.mk tct none ks') := by
      refine mkFromContents_eq tct none ks' ?_ ?_
      · intro hct
        rw [Kids.listCanonical_eq_keys, hkeys,
          ← Kids.listCanonical_eq_keys]
        exact hlist hct
      · intro hct
        rw [Kids.keysContainTuple_eq_keys, hkeys,
          ← Kids.keysContainTuple_eq_keys]
        exact hdict hct
    refine ⟨.mk tct none ks', ?_, rfl, rfl, ?_, ?_⟩
    · rw [getItem, if_pos hslice, getWithArray]
      simp only [Tainer.kids, Tainer.ct, hks', bindOk, hmk, mapOk]
    · simp only [Tainer.keyList, Tainer.kids, hkeys]
    · intro k v hkv
      exact hlook k v hkv

/-- C10 witness: on the dict-like tree with the single mapping key `None`,
indexing with the bare key `None` broadcasts `[None]` into the child array
(yielding a tree again keyed by `None` with the reshaped leaf) instead of
returning the child stored under the key `None`. -/
theorem c10_none_and_tuples_broadcast_witness :
    isSlice (.tupI [.intS 0, .sliceS 0 2, .noneS]) = true ∧
    getItem (.mk .dictT none (.cons .noneK (.arr ⟨[2], [4, 5]⟩) .nil))
        (.ixK .noneI) =
      getWithArray (.mk .dictT none
        (.cons .noneK (.arr ⟨[2], [4, 5]⟩) .nil)) (.ixK .noneI) ∧
    ∃ u, getItem (.mk .dictT none
        (.cons .noneK (.arr ⟨[2], [4, 5]⟩) .nil)) (.ixK .noneI) =
        .ok (.tree u) ∧ u.ct = .dictT ∧ u.dt = none ∧
      u.keyList = [.noneK] ∧
      ∀ k v, Tainer.lookup (.mk .dictT none
          (.cons .noneK (.arr ⟨[2], [4, 5]⟩) .nil)) k = some v →
        ∃ r, applyIdxNode v (.ixK .noneI) = .ok r ∧ u.lookup k = some r := by
  refine ⟨c10_none_and_tuples_broadcast.2.1 _ (by simp), ?_, ?_⟩
  · exact c10_none_and_tuples_broadcast.2.2.1 _ _ (by simp)
  · have h := c10_none_and_tuples_broadcast.2.2.2
      (.mk .dictT none (.cons .noneK (.arr ⟨[2], [4, 5]⟩) .nil)) .noneI
      (by simp) ?_ (by simp) (by intro hct; exact absurd hct (by simp))
      (by intro _; simp)
    · obtain ⟨u, h1, h2, h3, h4, h5⟩ := h
      exact ⟨u, h1, h2, h3, h4, h5⟩
    · intro k v hkv
      simp only [Tainer.lookup, Tainer.kids, Kids.lookup] at hkv
      by_cases hk : PyKey.noneK = k
      · rw [if_pos hk] at hkv
        injection hkv with hkv
        subst hkv
        exact ⟨.arr ⟨[1, 2], [4, 5]⟩, by simp⟩
      · rw [if_neg hk] at hkv
        exact absurd hkv (by simp)

/-!
Claim C3.  Parallel-index get: indexing a tree with another tree applies
each `(key, sub_index)` pair to the matching child; a key absent from
`self` fails, a leaf-array child combined with a tree-shaped sub-index is
rejected with the key-kind error, and otherwise the result is a tree over
exactly the index tree's keys holding `self[k][sub_index]`.
-/

/-- The rejected combination of `_get_with_arraytainer`: a plain leaf
array child with a tree-shaped sub-index. -/
def leafTreeClash : Node → Node → Bool
  | .arr _, .tree _ => true
  | _, _ => false

attribute [simp] leafTreeClash

/-- The per-entry loop of `_get_with_arraytainer` succeeds with the
per-key indexed children, keys unchanged, when every entry's key exists,
no entry clashes, and every per-key indexing succeeds. -/
theorem gwaKids_ok :
    ∀ (t : Tainer) (ks : Kids),
      (∀ k v, ks.lookup k = some v → ∃ child, t.lookup k = some child ∧
        leafTreeClash child v = false ∧
        ∃ r, applyIdxNode child (nodeAsGetKey v) = .ok r) →
      ks.noDupKeys = true →
      ∃ ks', gwaKids t ks = .ok ks' ∧ ks'.keyList = ks.keyList ∧
        ∀ k v, ks.lookup k = some v → ∃ child r,
          t.lookup k = some child ∧
          applyIdxNode child (nodeAsGetKey v) = .ok r ∧
          ks'.lookup k = some r
  | t, .nil, _, _ =>
    ⟨.nil, by rw [gwaKids], rfl, by intro k v h; simp at h⟩
  | t, .cons k0 v0 tl, hok, hnd => by
    simp only [Kids.noDupKeys, Bool.and_eq_true, Bool.not_eq_true'] at hnd
    obtain ⟨child, hchild, hclash, r0, hr0⟩ :=
      hok k0 v0 (by rw [Kids.lookup, if_pos rfl])
    have htl : ∀ k v, tl.lookup k = some v →
        ∃ child, t.lookup k = some child ∧ leafTreeClash child v = false ∧
          ∃ r, applyIdxNode child (nodeAsGetKey v) = .ok r := by
      intro k v hkv
      refine hok k v ?_
      have hne : k0 ≠ k := by
        intro hkk
        subst hkk
        have hhk : tl.hasKey k0 = true := by simp [Kids.hasKey, hkv]
        rw [hhk] at hnd
        exact absurd hnd.1 (by simp)
      rw [Kids.lookup, if_neg hne]
      exact hkv
    obtain ⟨tl', htl', hkeys, hlook⟩ := gwaKids_ok t tl htl hnd.2
    refine ⟨.cons k0 r0 tl', ?_, ?_, ?_⟩
    · rw [gwaKids]
      split
      · rename_i heq
        rw [hchild] at heq
        exact absurd heq (by simp)
      · rename_i child' heq
        rw [hchild] at heq
        injection heq with heq
        subst heq
        cases child with
        | arr a =>
          cases v0 with
          | tree vt => simp at hclash
          | arr b => simp only [hr0, htl', bindOk]
          | raw i => simp only [hr0, htl', bindOk]
        | tree s => cases v0 <;> simp only [hr0, htl', bindOk]
        | raw i => cases v0 <;> exact absurd hr0 (by simp)
    · simp [Kids.keyList, hkeys]
    · intro k v hkv
      by_cases hk : k0 = k
      · subst hk
        rw [Kids.lookup, if_pos rfl] at hkv
        injection hkv with hkv
        subst hkv
        exact ⟨child, r0, hchild, hr0, by rw [Kids.lookup, if_pos rfl]⟩
      · rw [Kids.lookup, if_neg hk] at hkv
        obtain ⟨c, r, hc, hr, hl⟩ := hlook k v hkv
        exact ⟨c, r, hc, hr, by rw [Kids.lookup, if_neg hk]; exact hl⟩

/-- C3 counterexample to the claim as frozen: the result is not always a
tree over exactly the index tree's keys.  For the list-like
`T = [[10,20],[30,40]]` and the dict-like parallel index `I = {1: 0}`
(key `1` exists in `T`, so the key check passes), the per-entry loop
collects `{1: 30}`, but because `T` is list-like the source then runs
`list(item.values())` and rebuilds through the constructor, which re-keys
by position: the result is keyed `{0}`, not `I`'s key set `{1}`. -/
theorem c3_parallel_index_get_counterexample :
    getItem
        (.mk .listT none (.cons (.intK 0) (.arr ⟨[2], [10, 20]⟩)
          (.cons (.intK 1) (.arr ⟨[2], [30, 40]⟩) .nil)))
        (.tainerK (.mk .dictT none
          (.cons (.intK 1) (.raw (.intI 0)) .nil))) =
      .ok (.tree (.mk .listT none
        (.cons (.intK 0) (.arr ⟨[], [30]⟩) .nil))) ∧
    Tainer.keyList (.mk .dictT none
        (.cons (.intK 1) (.raw (.intI 0)) .nil)) = [.intK 1] ∧
    Tainer.keyList (.mk .listT none
        (.cons (.intK 0) (.arr ⟨[], [30]⟩) .nil)) = [.intK 0] := by
  refine ⟨by simp, by simp, by simp⟩

/-- C3 as amended: indexing a tree `T` with an index tree `I` — every key
of `I` must exist in `T` (a leading missing key fails with key-not-found);
a leaf-array child under a tree-shaped sub-index is rejected with the
key-kind error; and provided `I`'s keys are compatible with `T`'s keying
mode (for list-like `T`, `I`'s keys are already the canonical positions
`0..`; for dict-like `T`, none of `I`'s keys is a tuple — otherwise the
constructor re-keys or rejects the collected result) the result is a
dtype-free tree over exactly `I`'s keys whose child at `k` is
`T.contents[k]` indexed by `I`'s sub-index at `k`; and on
`T = {a: [[1,2],[3,4]], b: [5,6,7]}`, `I = {a: 0, b: slice(0,2)}` it
yields `{a: [1,2], b: [5,6]}`. -/
theorem c3_parallel_index_get_amended :
    (∀ (t kt : Tainer),
      (∀ k v, kt.kids.lookup k = some v → ∃ child,
        t.lookup k = some child ∧ leafTreeClash child v = false ∧
        ∃ r, applyIdxNode child (nodeAsGetKey v) = .ok r) →
      kt.kids.noDupKeys = true →
      (t.ct = .listT → kt.kids.listCanonical 0 = true) →
      (t.ct = .dictT → kt.kids.keysContainTuple = false) →
      ∃ u, getItem t (.tainerK kt) = .ok (.tree u) ∧ u.ct = t.ct ∧
        u.dt = none ∧ u.keyList = kt.keyList ∧
        ∀ k v, kt.kids.lookup k = some v → ∃ child r,
          t.lookup k = some child ∧
          applyIdxNode child (nodeAsGetKey v) = .ok r ∧
          u.lookup k = some r) ∧
    (∀ (t : Tainer) (ct : CType) (dt : Option DType) (k : PyKey)
        (v : Node) (rest : Kids),
      t.lookup k = none →
      getItem t (.tainerK (.mk ct dt (.cons k v rest))) =
        .error .keyNotFound) ∧
    (∀ (t : Tainer) (ct : CType) (dt : Option DType) (k : PyKey)
        (vt : Tainer) (a : Arr) (rest : Kids),
      t.lookup k = some (.arr a) →
      getItem t (.tainerK (.mk ct dt (.cons k (.tree vt) rest))) =
        .error .keyKind) ∧
    getItem
        (.mk .dictT none (.cons (.strK "a") (.arr ⟨[2, 2], [1, 2, 3, 4]⟩)
          (.cons (.strK "b") (.arr ⟨[3], [5, 6, 7]⟩) .nil)))
        (.tainerK (.mk .dictT none (.cons (.strK "a") (.raw (.intI 0))
          (.cons (.strK "b") (.raw (.sliceI 0 2)) .nil)))) =
      .ok (.tree (.mk .dictT none (.cons (.strK "a") (.arr ⟨[2], [1, 2]⟩)
        (.cons (.strK "b") (.arr ⟨[2], [5, 6]⟩) .nil)))) := by
  refine ⟨?_, ?_, ?_, by simp⟩
  · intro t kt hok hnd hlist hdict
    obtain ⟨ks', hks', hkeys, hlook⟩ := gwaKids_ok t kt.kids hok hnd
    obtain ⟨tct, tdt, tks⟩ := t
    simp only [Tainer.ct, Tainer.lookup, Tainer.kids]
      at hok hnd hlist hdict hlook ⊢
    have hmk : mkFromContents tct none ks' = .ok (.mk tct none ks') := by
      refine mkFromContents_eq tct none ks' ?_ ?_
      · intro hct
        rw [Kids.listCanonical_eq_keys, hkeys,
          ← Kids.listCanonical_eq_keys]
        exact hlist hct
      · intro hct
        rw [Kids.keysContainTuple_eq_keys, hkeys,
          ← Kids.keysContainTuple_eq_keys]
        exact hdict hct
    refine ⟨.mk tct none ks', ?_, rfl, rfl, ?_, ?_⟩
    · rw [getItem, getWithArraytainer]
      simp only [Tainer.ct, Tainer.kids] at hks' ⊢
      simp only [hks', bindOk, hmk, mapOk]
    · simp only [Tainer.keyList, Tainer.kids, hkeys]
    · intro k v hkv
      exact hlook k v hkv
  · intro t ct dt k v rest hnone
    rw [getItem, getWithArraytainer]
    simp only [Tainer.kids]
    rw [gwaKids]
    split
    · simp
    · rename_i child' heq
      rw [hnone] at heq
      exact absurd heq (by simp)
  · intro t ct dt k vt a rest hsome
    rw [getItem, getWithArraytainer]
    simp only [Tainer.kids]
    rw [gwaKids]
    split
    · rename_i heq
      rw [hsome] at heq
      exact absurd heq (by simp)
    · rename_i child' heq
      rw [hsome] at heq
      injection heq with heq
      subst heq
      simp

/-- C3 witness: on `T = {a: [[1,2],[3,4]], b: [5,6,7]}`, the success case
applied to `I = {a: 0, b: slice(0,2)}`, the missing-key case applied to
`I = {c: 0}` and the leaf-with-tree case applied to `I = {a: {x: 0}}`. -/
theorem c3_parallel_index_get_amended_witness :
    (∃ u, getItem
        (.mk .dictT none (.cons (.strK "a") (.arr ⟨[2, 2], [1, 2, 3, 4]⟩)
          (.cons (.strK "b") (.arr ⟨[3], [5, 6, 7]⟩) .nil)))
        (.tainerK (.mk .dictT none (.cons (.strK "a") (.raw (.intI 0))
          (.cons (.strK "b") (.raw (.sliceI 0 2)) .nil)))) =
        .ok (.tree u) ∧
      u.keyList = [.strK "a", .strK "b"]) ∧
    getItem
        (.mk .dictT none (.cons (.strK "a") (.arr ⟨[2, 2], [1, 2, 3, 4]⟩)
          (.cons (.strK "b") (.arr ⟨[3], [5, 6, 7]⟩) .nil)))
        (.tainerK (.mk .dictT none (.cons (.strK "c") (.raw (.intI 0))
          .nil))) = .error .keyNotFound ∧
    getItem
        (.mk .dictT none (.cons (.strK "a") (.arr ⟨[2, 2], [1, 2, 3, 4]⟩)
          (.cons (.strK "b") (.arr ⟨[3], [5, 6, 7]⟩) .nil)))
        (.tainerK (.mk .dictT none (.cons (.strK "a")
          (.tree (.mk .dictT none (.cons (.strK "x") (.raw (.intI 0))
            .nil))) .nil))) = .error .keyKind := by
  refine ⟨?_, ?_, ?_⟩
  · have h := c3_parallel_index_get_amended.1
      (.mk .dictT none (.cons (.strK "a") (.arr ⟨[2, 2], [1, 2, 3, 4]⟩)
        (.cons (.strK "b") (.arr ⟨[3], [5, 6, 7]⟩) .nil)))
      (.mk .dictT none (.cons (.strK "a") (.raw (.intI 0))
        (.cons (.strK "b") (.raw (.sliceI 0 2)) .nil)))
      ?_ (by simp) (by intro hct; exact absurd hct (by simp))
      (by intro _; simp)
    · obtain ⟨u, h1, _, _, h4, _⟩ := h
      exact ⟨u, h1, by simpa using h4⟩
    · intro k v hkv
      simp only [Tainer.kids, Kids.lookup] at hkv
      by_cases h1 : PyKey.strK "a" = k
      · subst h1
        rw [if_pos rfl] at hkv
        injection hkv with hkv
        subst hkv
        refine ⟨.arr ⟨[2, 2], [1, 2, 3, 4]⟩, ?_, ?_,
          ⟨.arr ⟨[2], [1, 2]⟩, ?_⟩⟩
        · simp
        · simp
        · simp
      · rw [if_neg h1] at hkv
        by_cases h2 : PyKey.strK "b" = k
        · subst h2
          rw [if_pos rfl] at hkv
          injection hkv with hkv
          subst hkv
          refine ⟨.arr ⟨[3], [5, 6, 7]⟩, ?_, ?_,
            ⟨.arr ⟨[2], [5, 6]⟩, ?_⟩⟩
          · simp [Tainer.lookup, Kids.lookup, if_neg h1]
          · simp
          · simp
        · rw [if_neg h2] at hkv
          exact absurd hkv (by simp)
  · exact c3_parallel_index_get_amended.2.1 _ _ _ _ _ _ (by simp)
  · exact c3_parallel_index_get_amended.2.2.1
      (.mk .dictT none (.cons (.strK "a") (.arr ⟨[2, 2], [1, 2, 3, 4]⟩)
        (.cons (.strK "b") (.arr ⟨[3], [5, 6, 7]⟩) .nil)))
      .dictT none (.strK "a")
      (.mk .dictT none (.cons (.strK "x") (.raw (.intI 0)) .nil))
      ⟨[2, 2], [1, 2, 3, 4]⟩ .nil (by simp)

/-!
Claim C2.  The subset rule of the dispatch engine: operands sharing the
reference's keying mode combine successfully exactly when every operand's
key set is a subset of the reference's; the result ranges over the
reference's full key set, keys outside the shared key set keeping the
reference's (deep-copied) values; a non-subset operand fails with the
structural-mismatch error before any per-key call.
-/

/-- Compatibility validation succeeds when every operand matches the
reference's contents type and key subset. -/
theorem checkArgCompat_ok :
    ∀ (ts : List Tainer) (ref : Tainer),
      (∀ t ∈ ts, t.ct = ref.ct) → (∀ t ∈ ts, keysSubset t ref = true) →
      checkArgCompat ts ref = .ok ()
  | [], ref, _, _ => rfl
  | a :: rest, ref, hct, hsub => by
    rw [checkArgCompat]
    rw [if_neg (show ¬(a.ct ≠ ref.ct) from fun hne => hne (hct a (by simp)))]
    rw [if_neg (show ¬¬(keysSubset a ref = true) from
      fun hn => hn (hsub a (by simp)))]
    exact checkArgCompat_ok rest ref (fun t ht => hct t (by simp [ht]))
      (fun t ht => hsub t (by simp [ht]))

/-- Compatibility validation fails with the structural-mismatch error when
all operands share the reference's contents type but some operand's key
set is not a subset of the reference's. -/
theorem checkArgCompat_err :
    ∀ (ts : List Tainer) (ref : Tainer),
      (∀ t ∈ ts, t.ct = ref.ct) →
      (∃ t ∈ ts, keysSubset t ref = false) →
      checkArgCompat ts ref = .error .structuralMismatch
  | [], ref, _, hbad => by simp at hbad
  | a :: rest, ref, hct, hbad => by
    rw [checkArgCompat]
    rw [if_neg (show ¬(a.ct ≠ ref.ct) from fun hne => hne (hct a (by simp)))]
    by_cases ha : keysSubset a ref = true
    · rw [if_neg (show ¬¬(keysSubset a ref = true) from fun hn => hn ha)]
      refine checkArgCompat_err rest ref
        (fun t ht => hct t (by simp [ht])) ?_
      obtain ⟨t, ht, htf⟩ := hbad
      rcases List.mem_cons.mp ht with ht' | ht'
      · subst ht'
        rw [ha] at htf
        exact absurd htf (by simp)
      · exact ⟨t, ht', htf⟩
    · rw [if_pos (show ¬(keysSubset a ref = true) from ha)]

/-- The per-key loop succeeds when every shared key's call succeeds,
producing contents with the reference's keys: per-key results under shared
keys, the reference's values elsewhere. -/
theorem dispatchKids_ok :
    ∀ (f : LeafFn) (args : List FArg) (ts : List Tainer) (ks : Kids),
      ks.noDupKeys = true →
      (∀ k v, ks.lookup k = some v → inAllKeysets ts k = true →
        ∃ r, dispatchStep f args k = .ok r) →
      ∃ ks', dispatchKids f args ts ks = .ok ks' ∧
        ks'.keyList = ks.keyList ∧
        ∀ k v, ks.lookup k = some v →
          (inAllKeysets ts k = true →
            ∃ r, dispatchStep f args k = .ok r ∧ ks'.lookup k = some r) ∧
          (inAllKeysets ts k = false → ks'.lookup k = some v)
  | f, args, ts, .nil, _, _ =>
    ⟨.nil, by rw [dispatchKids], rfl, by intro k v h; simp at h⟩
  | f, args, ts, .cons k0 v0 tl, hnd, hok => by
    simp only [Kids.noDupKeys, Bool.and_eq_true, Bool.not_eq_true'] at hnd
    have htl : ∀ k v, tl.lookup k = some v → inAllKeysets ts k = true →
        ∃ r, dispatchStep f args k = .ok r := by
      intro k v hkv hin
      refine hok k v ?_ hin
      have hne : k0 ≠ k := by
        intro hkk
        subst hkk
        have hhk : tl.hasKey k0 = true := by simp [Kids.hasKey, hkv]
        rw [hhk] at hnd
        exact absurd hnd.1 (by simp)
      rw [Kids.lookup, if_neg hne]
      exact hkv
    obtain ⟨tl', htl', hkeys, hlook⟩ := dispatchKids_ok f args ts tl hnd.2 htl
    by_cases hin0 : inAllKeysets ts k0 = true
    · obtain ⟨r0, hr0⟩ := hok k0 v0 (by rw [Kids.lookup, if_pos rfl]) hin0
      refine ⟨.cons k0 r0 tl', ?_, ?_, ?_⟩
      · rw [dispatchKids]
        rw [if_pos hin0]
        simp only [hr0, htl', bindOk]
      · simp [Kids.keyList, hkeys]
      · intro k v hkv
        by_cases hk : k0 = k
        · subst hk
          rw [Kids.lookup, if_pos rfl] at hkv
          injection hkv with hkv
          subst hkv
          constructor
          · intro _
            exact ⟨r0, hr0, by rw [Kids.lookup, if_pos rfl]⟩
          · intro hfalse
            rw [hin0] at hfalse
            exact absurd hfalse (by simp)
        · rw [Kids.lookup, if_neg hk] at hkv
          have := hlook k v hkv
          constructor
          · intro hin
            obtain ⟨r, hr, hl⟩ := this.1 hin
            exact ⟨r, hr, by rw [Kids.lookup, if_neg hk]; exact hl⟩
          · intro hnin
            have hl := this.2 hnin
            rw [Kids.lookup, if_neg hk]
            exact hl
    · have hin0' : inAllKeysets ts k0 = false := by simpa using hin0
      refine ⟨.cons k0 v0 tl', ?_, ?_, ?_⟩
      · rw [dispatchKids]
        rw [if_neg hin0]
        simp only [htl', bindOk]
      · simp [Kids.keyList, hkeys]
      · intro k v hkv
        by_cases hk : k0 = k
        · subst hk
          rw [Kids.lookup, if_pos rfl] at hkv
          injection hkv with hkv
          subst hkv
          constructor
          · intro hin
            rw [hin0'] at hin
            exact absurd hin (by simp)
          · intro _
            rw [Kids.lookup, if_pos rfl]
        · rw [Kids.lookup, if_neg hk] at hkv
          have := hlook k v hkv
          constructor
          · intro hin
            obtain ⟨r, hr, hl⟩ := this.1 hin
            exact ⟨r, hr, by rw [Kids.lookup, if_neg hk]; exact hl⟩
          · intro hnin
            have hl := this.2 hnin
            rw [Kids.lookup, if_neg hk]
            exact hl

/-- C2: for a dispatched call whose arraytainer operands all share the
reference operand's keying mode — if every operand's key set is a subset of
the reference's (and every shared key's call succeeds), the dispatch
returns a dtype-free tree over the reference's full key set, keys outside
the shared key set keeping the reference's values; if some operand's key
set is not a subset of the reference's, the dispatch fails with the
structural-mismatch error before producing any result. -/
theorem c2_subset_rule (f : LeafFn) (args : List FArg) (t0 : Tainer)
    (ts' : List Tainer)
    (hscan : listTainersInArgs args = t0 :: ts')
    (hmode : ∀ t ∈ t0 :: ts', t.ct = (maxByLen t0 ts').ct) :
    ((∀ t ∈ t0 :: ts', keysSubset t (maxByLen t0 ts') = true) →
      (maxByLen t0 ts').kids.noDupKeys = true →
      ((maxByLen t0 ts').ct = .listT →
        (maxByLen t0 ts').kids.listCanonical 0 = true) →
      ((maxByLen t0 ts').ct = .dictT →
        (maxByLen t0 ts').kids.keysContainTuple = false) →
      (∀ k v, (maxByLen t0 ts').kids.lookup k = some v →
        inAllKeysets (t0 :: ts') k = true →
        ∃ r, dispatchStep f args k = .ok r) →
      ∃ u, manageFuncCall f args = .ok (.tree u) ∧
        u.ct = (maxByLen t0 ts').ct ∧ u.dt = none ∧
        u.keyList = (maxByLen t0 ts').keyList ∧
        ∀ k v, (maxByLen t0 ts').kids.lookup k = some v →
          (inAllKeysets (t0 :: ts') k = true →
            ∃ r, dispatchStep f args k = .ok r ∧ u.lookup k = some r) ∧
          (inAllKeysets (t0 :: ts') k = false → u.lookup k = some v)) ∧
    ((∃ t ∈ t0 :: ts', keysSubset t (maxByLen t0 ts') = false) →
      manageFuncCall f args = .error .structuralMismatch) := by
  constructor
  · intro hsub hnd hlist hdict hok
    obtain ⟨ks', hks', hkeys, hlook⟩ :=
      dispatchKids_ok f args (t0 :: ts') (maxByLen t0 ts').kids hnd hok
    have hcompat := checkArgCompat_ok (t0 :: ts') (maxByLen t0 ts') hmode hsub
    have hmk : mkFromContents (maxByLen t0 ts').ct none ks' =
        .ok (.mk (maxByLen t0 ts').ct none ks') := by
      refine mkFromContents_eq _ none ks' ?_ ?_
      · intro hct
        rw [Kids.listCanonical_eq_keys, hkeys,
          ← Kids.listCanonical_eq_keys]
        exact hlist hct
      · intro hct
        rw [Kids.keysContainTuple_eq_keys, hkeys,
          ← Kids.keysContainTuple_eq_keys]
        exact hdict hct
    refine ⟨.mk (maxByLen t0 ts').ct none ks', ?_, rfl, rfl, ?_, ?_⟩
    · rw [manageFuncCall, hscan]
      simp only [hcompat, bindOk, hks', hmk, mapOk]
    · simp only [Tainer.keyList, Tainer.kids, hkeys]
    · intro k v hkv
      simp only [Tainer.lookup, Tainer.kids]
      exact hlook k v hkv
  · intro hbad
    rw [manageFuncCall, hscan]
    have hcompat := checkArgCompat_err (t0 :: ts') (maxByLen t0 ts')
      hmode hbad
    simp only [hcompat, bindErr]

/-- Elementwise addition of two same-shaped leaf arrays: a concrete binary
host operation for exercising the dispatch engine. -/
def addF : LeafFn := fun args =>
  match args with
  | [.val (.arr x), .val (.arr y)] =>
    if x.shape = y.shape then
      .ok ⟨x.shape, List.zipWith (· + ·) x.data y.data⟩
    else .error .external
  | _ => .error .external

attribute [simp] addF

/-- C2 witness: reference `{a: [1], b: [2], c: [3]}` combined with operand
`{a: [10], b: [20]}` succeeds over keys `{a, b, c}` with `c` keeping the
reference's value, while combining with `{a: [10], d: [20]}` fails with
the structural-mismatch error. -/
theorem c2_subset_rule_witness :
    (∃ u, manageFuncCall addF
        [.val (.tree (.mk .dictT none
          (.cons (.strK "a") (.arr ⟨[1], [1]⟩)
            (.cons (.strK "b") (.arr ⟨[1], [2]⟩)
              (.cons (.strK "c") (.arr ⟨[1], [3]⟩) .nil))))),
         .val (.tree (.mk .dictT none
          (.cons (.strK "a") (.arr ⟨[1], [10]⟩)
            (.cons (.strK "b") (.arr ⟨[1], [20]⟩) .nil))))] =
        .ok (.tree u) ∧
      u.keyList = [.strK "a", .strK "b", .strK "c"] ∧
      u.lookup (.strK "c") = some (.arr ⟨[1], [3]⟩)) ∧
    manageFuncCall addF
        [.val (.tree (.mk .dictT none
          (.cons (.strK "a") (.arr ⟨[1], [1]⟩)
            (.cons (.strK "b") (.arr ⟨[1], [2]⟩)
              (.cons (.strK "c") (.arr ⟨[1], [3]⟩) .nil))))),
         .val (.tree (.mk .dictT none
          (.cons (.strK "a") (.arr ⟨[1], [10]⟩)
            (.cons (.strK "d") (.arr ⟨[1], [20]⟩) .nil))))] =
      .error .structuralMismatch := by
  constructor
  · have h := (c2_subset_rule addF
      [.val (.tree (.mk .dictT none
        (.cons (.strK "a") (.arr ⟨[1], [1]⟩)
          (.cons (.strK "b") (.arr ⟨[1], [2]⟩)
            (.cons (.strK "c") (.arr ⟨[1], [3]⟩) .nil))))),
       .val (.tree (.mk .dictT none
        (.cons (.strK "a") (.arr ⟨[1], [10]⟩)
          (.cons (.strK "b") (.arr ⟨[1], [20]⟩) .nil))))]
      (.mk .dictT none
        (.cons (.strK "a") (.arr ⟨[1], [1]⟩)
          (.cons (.strK "b") (.arr ⟨[1], [2]⟩)
            (.cons (.strK "c") (.arr ⟨[1], [3]⟩) .nil))))
      [.mk .dictT none
        (.cons (.strK "a") (.arr ⟨[1], [10]⟩)
          (.cons (.strK "b") (.arr ⟨[1], [20]⟩) .nil))]
      (by simp) (by decide)).1 (by decide) (by decide) (by decide)
      (by decide) ?_
    · obtain ⟨u, h1, _, _, h4, h5⟩ := h
      refine ⟨u, h1, by simpa using h4, ?_⟩
      have h6 := (h5 (.strK "c") (.arr ⟨[1], [3]⟩) (by decide)).2 (by decide)
      simpa using h6
    · intro k v hkv hin
      by_cases h1 : PyKey.strK "a" = k
      · subst h1
        exact ⟨.arr ⟨[1], [11]⟩, by simp⟩
      · by_cases h2 : PyKey.strK "b" = k
        · subst h2
          exact ⟨.arr ⟨[1], [22]⟩, by simp⟩
        · exfalso
          simp only [Tainer.kids, Kids.lookup] at hkv
          rw [if_neg h1, if_neg h2] at hkv
          by_cases h3 : PyKey.strK "c" = k
          · subst h3
            revert hin
            decide
          · rw [if_neg h3] at hkv
            exact absurd hkv (by simp)
  · exact (c2_subset_rule addF _
      (.mk .dictT none
        (.cons (.strK "a") (.arr ⟨[1], [1]⟩)
          (.cons (.strK "b") (.arr ⟨[1], [2]⟩)
            (.cons (.strK "c") (.arr ⟨[1], [3]⟩) .nil))))
      [.mk .dictT none
        (.cons (.strK "a") (.arr ⟨[1], [10]⟩)
          (.cons (.strK "d") (.arr ⟨[1], [20]⟩) .nil))]
      (by simp) (by decide)).2 (by decide)

/-!
Claim C5.  Tree-with-scalar dispatch: `op(T, c)` substitutes `T[k]` and
`c` per key.  The claim as stated fails when a key of `T` is itself
slice-classified (`None` is a legal dict key): the `arg[key]` projection
then broadcasts instead of selecting a child, and the engine re-dispatches
on a tree of the same shape forever — python dies with `RecursionError`,
modelled as the host-level error.  With regular keys (and each raw per-key
application succeeding) the claim holds.
-/

/-- A key present in the contents belongs to the key list's membership. -/
theorem Kids.hasKey_of_mem :
    ∀ (ks : Kids) (k : PyKey), k ∈ ks.keyList → ks.hasKey k = true
  | .nil, k, h => by simp [Kids.keyList] at h
  | .cons k' v tl, k, h => by
    by_cases hk : k' = k
    · simp [Kids.hasKey, Kids.lookup, if_pos hk]
    · simp only [Kids.keyList, List.mem_cons] at h
      rcases h with h | h
      · exact absurd h.symm hk
      · simp only [Kids.hasKey, Kids.lookup, if_neg hk]
        exact Kids.hasKey_of_mem tl k h

/-- Every tree's key set is a subset of its own. -/
theorem keysSubset_self (t : Tainer) : keysSubset t t = true := by
  rw [keysSubset]
  rw [List.all_eq_true]
  intro k hk
  exact Kids.hasKey_of_mem t.kids k hk

/-- A child found in the contents is no deeper than the contents. -/
theorem Kids.depth_of_lookup :
    ∀ (ks : Kids) (k : PyKey) (v : Node), ks.lookup k = some v →
      nodeDepth v ≤ kidsDepth ks
  | .nil, _, _, h => by simp [Kids.lookup] at h
  | .cons k' v' tl, k, v, h => by
    rw [Kids.lookup] at h
    by_cases hk : k' = k
    · rw [if_pos hk] at h
      injection h with h
      subst h
      rw [kidsDepth]
      exact Nat.le_max_left _ _
    · rw [if_neg hk] at h
      have := Kids.depth_of_lookup tl k v h
      rw [kidsDepth]
      omega

/-- With all keys regular, any present key is regular. -/
theorem Kids.isRegular_of_lookup :
    ∀ (ks : Kids) (k : PyKey) (v : Node), ks.allRegularKeys = true →
      ks.lookup k = some v → k.isRegular = true
  | .nil, _, _, _, h => by simp [Kids.lookup] at h
  | .cons k' v' tl, k, v, hreg, h => by
    simp only [Kids.allRegularKeys, Bool.and_eq_true] at hreg
    rw [Kids.lookup] at h
    by_cases hk : k' = k
    · subst hk
      exact hreg.1
    · rw [if_neg hk] at h
      exact Kids.isRegular_of_lookup tl k v hreg.2 h

/-- `arg[key]` for a plain regular key present in the tree is the stored
child. -/
theorem getItem_regular_key {t : Tainer} {k : PyKey} {v : Node}
    (hreg : k.isRegular = true) (h : t.lookup k = some v) :
    getItem t (.ixK (pykeyToIx k)) = .ok v := by
  cases k with
  | intK n =>
    rw [pykeyToIx, getItem, if_neg (by simp), ixToPyKey,
      getWithRegularKey, h]
  | strK s =>
    rw [pykeyToIx, getItem, if_neg (by simp), ixToPyKey,
      getWithRegularKey, h]
  | noneK => simp [PyKey.isRegular] at hreg
  | tupleK xs => simp [PyKey.isRegular] at hreg

/-- The per-key call of a tree-with-scalar dispatch at a regular present
key is the raw application of the operation to the stored child and the
scalar. -/
theorem dispatchStep_tree_scalar (f : LeafFn) (T : Tainer) (c : Int)
    (k : PyKey) (v : Node) (hreg : k.isRegular = true)
    (h : T.lookup k = some v) :
    dispatchStep f [.val (.tree T), .scalarF c] k =
      applyFunc f [.val v, .scalarF c] := by
  have hk' : T.kids.lookup k = some v := h
  have hhk : T.hasKey k = true := by
    rw [Tainer.hasKey, Kids.hasKey, hk']
    rfl
  have hrest : prepareFuncArgs [FArg.scalarF c] k = .ok [FArg.scalarF c] := by
    simp
  have hprep : prepareFuncArgs [.val (.tree T), .scalarF c] k =
      .ok [.val v, .scalarF c] := by
    rw [prepareFuncArgs]
    rw [if_pos hhk]
    rw [getItem_regular_key hreg h, bindOk, hrest, bindOk]
  rw [dispatchStep, hprep, bindOk]
  have hlt : fargsDepth [FArg.val v, FArg.scalarF c] <
      fargsDepth [FArg.val (.tree T), FArg.scalarF c] := by
    have h1 : nodeDepth v ≤ kidsDepth T.kids :=
      Kids.depth_of_lookup T.kids k v h
    obtain ⟨ct, dt, ks⟩ := T
    simp only [fargsDepth, fargDepth, nodeDepth, tainerDepth,
      Tainer.kids] at h1 ⊢
    omega
  rw [dif_pos hlt]

/-- C5 counterexample: the claim fails as stated.  On the dict-like tree
`{None: [5]}` (with `None` a legal mapping key) and the scalar `7`, the
per-key projection `T[None]` broadcasts instead of selecting the child, so
the engine re-dispatches on a tree of the same shape without progress: the
dispatched call raises (python's recursion limit; the model's host-level
error) and returns no tree at all. -/
theorem c5_scalar_broadcast_counterexample :
    manageFuncCall addF
        [.val (.tree (.mk .dictT none
          (.cons .noneK (.arr ⟨[1], [5]⟩) .nil))), .scalarF 7] =
      .error .external ∧
    ∀ u, manageFuncCall addF
        [.val (.tree (.mk .dictT none
          (.cons .noneK (.arr ⟨[1], [5]⟩) .nil))), .scalarF 7] ≠
      .ok (.tree u) := by
  constructor
  · simp
  · intro u hu
    rw [show manageFuncCall addF
        [.val (.tree (.mk .dictT none
          (.cons .noneK (.arr ⟨[1], [5]⟩) .nil))), .scalarF 7] =
        .error .external from by simp] at hu
    exact absurd hu (by simp)

/-- C5 as amended: for a tree `T` whose top-level keys are regular plain
keys (ints or strings — not `None` and not index tuples), a scalar `c`,
and any operation `f` whose raw per-key application `f(T[k], c)` succeeds
on every key, the dispatched `op(T, c)` is a dtype-free tree over exactly
`T`'s keys whose value at `k` is the raw application `f(T[k], c)`. -/
theorem c5_scalar_broadcast_amended (f : LeafFn) (T : Tainer) (c : Int)
    (hreg : T.kids.allRegularKeys = true)
    (hnd : T.kids.noDupKeys = true)
    (hlist : T.ct = .listT → T.kids.listCanonical 0 = true)
    (hdict : T.ct = .dictT → T.kids.keysContainTuple = false)
    (hok : ∀ k v, T.lookup k = some v →
      ∃ r, applyFunc f [.val v, .scalarF c] = .ok r) :
    ∃ u, manageFuncCall f [.val (.tree T), .scalarF c] = .ok (.tree u) ∧
      u.ct = T.ct ∧ u.dt = none ∧ u.keyList = T.keyList ∧
      ∀ k v, T.lookup k = some v →
        ∃ r, applyFunc f [.val v, .scalarF c] = .ok r ∧
          u.lookup k = some r := by
  have hscan : listTainersInArgs [.val (.tree T), .scalarF c] = [T] := by
    simp
  have hok' : ∀ k v, T.kids.lookup k = some v →
      inAllKeysets [T] k = true →
      ∃ r, dispatchStep f [.val (.tree T), .scalarF c] k = .ok r := by
    intro k v hkv _
    obtain ⟨r, hr⟩ := hok k v hkv
    refine ⟨r, ?_⟩
    rw [dispatchStep_tree_scalar f T c k v
      (Kids.isRegular_of_lookup T.kids k v hreg hkv) hkv]
    exact hr
  obtain ⟨ks', hks', hkeys, hlook⟩ :=
    dispatchKids_ok f [.val (.tree T), .scalarF c] [T] T.kids hnd hok'
  have hct' : ∀ t ∈ [T], t.ct = T.ct := by
    intro t ht
    rw [List.mem_singleton] at ht
    rw [ht]
  have hsub' : ∀ t ∈ [T], keysSubset t T = true := by
    intro t ht
    rw [List.mem_singleton] at ht
    rw [ht]
    exact keysSubset_self T
  have hcompat : checkArgCompat [T] T = .ok () :=
    checkArgCompat_ok [T] T hct' hsub'
  have hmk : mkFromContents T.ct none ks' = .ok (.mk T.ct none ks') := by
    refine mkFromContents_eq _ none ks' ?_ ?_
    · intro hct
      rw [Kids.listCanonical_eq_keys, hkeys, ← Kids.listCanonical_eq_keys]
      exact hlist hct
    · intro hct
      rw [Kids.keysContainTuple_eq_keys, hkeys,
        ← Kids.keysContainTuple_eq_keys]
      exact hdict hct
  refine ⟨.mk T.ct none ks', ?_, rfl, rfl, ?_, ?_⟩
  · rw [manageFuncCall, hscan]
    have hmax : maxByLen T [] = T := by rw [maxByLen]
    simp only [hmax, hcompat, bindOk, hks', hmk, mapOk]
  · simp only [Tainer.keyList, Tainer.kids, hkeys]
  · intro k v hkv
    have hkv' : T.kids.lookup k = some v := hkv
    have hin : inAllKeysets [T] k = true := by
      simp only [inAllKeysets, List.all_eq_true]
      intro t ht
      rw [List.mem_singleton] at ht
      subst ht
      rw [Tainer.hasKey, Kids.hasKey, hkv']
      rfl
    obtain ⟨r, hr, hl⟩ := (hlook k v hkv).1 hin
    refine ⟨r, ?_, ?_⟩
    · rw [← dispatchStep_tree_scalar f T c k v
        (Kids.isRegular_of_lookup T.kids k v hreg hkv) hkv]
      exact hr
    · simpa [Tainer.lookup, Tainer.kids] using hl

/-- C5 witness for the amended claim: `op({x: [1,2], y: [3]}, 7)` with
elementwise scalar addition yields `{x: [8,9], y: [10]}` per key. -/
theorem c5_scalar_broadcast_amended_witness :
    ∃ u, manageFuncCall
        (fun args =>
          match args with
          | [.val (.arr x), .scalarF d] =>
            .ok ⟨x.shape, x.data.map fun e => e + d⟩
          | _ => .error .external)
        [.val (.tree (.mk .dictT none
          (.cons (.strK "x") (.arr ⟨[2], [1, 2]⟩)
            (.cons (.strK "y") (.arr ⟨[1], [3]⟩) .nil)))), .scalarF 7] =
        .ok (.tree u) ∧
      u.ct = .dictT ∧ u.dt = none ∧
      u.keyList = [.strK "x", .strK "y"] ∧
      ∀ k v, Tainer.lookup (.mk .dictT none
          (.cons (.strK "x") (.arr ⟨[2], [1, 2]⟩)
            (.cons (.strK "y") (.arr ⟨[1], [3]⟩) .nil))) k = some v →
        ∃ r, applyFunc
            (fun args =>
              match args with
              | [.val (.arr x), .scalarF d] =>
                .ok ⟨x.shape, x.data.map fun e => e + d⟩
              | _ => .error .external)
            [.val v, .scalarF 7] = .ok r ∧ u.lookup k = some r := by
  have h := c5_scalar_broadcast_amended
    (fun args =>
      match args with
      | [.val (.arr x), .scalarF d] =>
        .ok ⟨x.shape, x.data.map fun e => e + d⟩
      | _ => .error .external)
    (.mk .dictT none
      (.cons (.strK "x") (.arr ⟨[2], [1, 2]⟩)
        (.cons (.strK "y") (.arr ⟨[1], [3]⟩) .nil))) 7
    (by decide) (by decide) (by intro hct; exact absurd hct (by decide))
    (by intro _; decide) ?_
  · obtain ⟨u, h1, h2, h3, h4, h5⟩ := h
    exact ⟨u, h1, h2, h3, by simpa using h4, h5⟩
  · intro k v hkv
    simp only [Tainer.lookup, Tainer.kids, Kids.lookup] at hkv
    by_cases h1 : PyKey.strK "x" = k
    · subst h1
      rw [if_pos rfl] at hkv
      injection hkv with hkv
      subst hkv
      exact ⟨.arr ⟨[2], [8, 9]⟩, by simp⟩
    · rw [if_neg h1] at hkv
      by_cases h2 : PyKey.strK "y" = k
      · subst h2
        rw [if_pos rfl] at hkv
        injection hkv with hkv
        subst hkv
        exact ⟨.arr ⟨[1], [10]⟩, by simp⟩
      · rw [if_neg h2] at hkv
        exact absurd hkv (by simp)

/-!
Claim C4.  The flatten/reshape round trip.  `reshape(flatten(T), shape(T))`
routes through the dispatch engine with the flat array as a plain
pass-through argument, so every per-key call receives the *whole* flat
array together with that key's shape: the round trip reproduces `T` only
when `T` consists of a single leaf; with two or more nonempty leaves the
per-key reshape is a host size error.  (The shape-driven redistribution of
a flat vector is `from_array`, not `reshape`.)
-/

/-- C4 counterexample: on the two-leaf tree `{a: [1,2], b: [3,4,5]}`,
`flatten` yields the 5-element vector and `shape` the shape tree, but the
dispatched `reshape(flatten(T), shape(T))` fails: per key the whole
5-element array is reshaped into that key's leaf shape. -/
theorem c4_flatten_reshape_roundtrip_counterexample :
    Tainer.flatten (.mk .dictT none
        (.cons (.strK "a") (.arr ⟨[2], [1, 2]⟩)
          (.cons (.strK "b") (.arr ⟨[3], [3, 4, 5]⟩) .nil))) =
      .ok ⟨[5], [1, 2, 3, 4, 5]⟩ ∧
    shapeT (.mk .dictT none
        (.cons (.strK "a") (.arr ⟨[2], [1, 2]⟩)
          (.cons (.strK "b") (.arr ⟨[3], [3, 4, 5]⟩) .nil))) =
      .ok (.mk .dictT none
        (.cons (.strK "a") (.arr ⟨[1], [2]⟩)
          (.cons (.strK "b") (.arr ⟨[1], [3]⟩) .nil))) ∧
    reshapeDispatch ⟨[5], [1, 2, 3, 4, 5]⟩
        (.mk .dictT none
          (.cons (.strK "a") (.arr ⟨[1], [2]⟩)
            (.cons (.strK "b") (.arr ⟨[1], [3]⟩) .nil))) =
      .error .external := by
  refine ⟨by simp [List.mapM, List.mapM.loop], by simp,
    by simp [List.mapM, List.mapM.loop]⟩

/-- Single-operand unary dispatch on a one-leaf tree: the operation is
applied to the leaf and the result rebuilt over the same key with no
dtype. -/
theorem applyFunc_single_unary (f : LeafFn) (ct : CType)
    (dt : Option DType) (k : PyKey) (a : Arr) (r : Arr)
    (hreg : k.isRegular = true) (hcanon : ct = .listT → k = .intK 0)
    (hf : f [.val (.arr a)] = .ok r) :
    applyFunc f [.val (.tree (.mk ct dt (.cons k (.arr a) .nil)))] =
      .ok (.tree (.mk ct none (.cons k (.arr r) .nil))) := by
  have hscan : listTainersInArgs
      [FArg.val (.tree (.mk ct dt (.cons k (.arr a) .nil)))] =
      [.mk ct dt (.cons k (.arr a) .nil)] := by simp
  have hlook : Tainer.lookup (.mk ct dt (.cons k (.arr a) .nil)) k =
      some (.arr a) := by
    rw [Tainer.lookup, Tainer.kids, Kids.lookup, if_pos rfl]
  have hhk : Tainer.hasKey (.mk ct dt (.cons k (.arr a) .nil)) k = true := by
    rw [Tainer.hasKey, Tainer.kids, Kids.hasKey, Kids.lookup, if_pos rfl]
    rfl
  have hprep : prepareFuncArgs
      [FArg.val (.tree (.mk ct dt (.cons k (.arr a) .nil)))] k =
      .ok [FArg.val (.arr a)] := by
    rw [prepareFuncArgs]
    rw [if_pos hhk]
    rw [getItem_regular_key hreg hlook, bindOk]
    rw [prepareFuncArgs]
    rw [bindOk]
  have hsc2 : listTainersInArgs [FArg.val (.arr a)] = [] := by simp
  have hlt : fargsDepth [FArg.val (.arr a)] <
      fargsDepth [FArg.val (.tree (.mk ct dt (.cons k (.arr a) .nil)))] := by
    simp [fargsDepth, fargDepth, nodeDepth, tainerDepth, kidsDepth]
  have hstep : dispatchStep f
      [FArg.val (.tree (.mk ct dt (.cons k (.arr a) .nil)))] k =
      .ok (.arr r) := by
    rw [dispatchStep, hprep, bindOk, dif_pos hlt]
    rw [applyFunc]
    simp only [hsc2, hf, mapOk]
  have hin : inAllKeysets [(.mk ct dt (.cons k (.arr a) .nil) : Tainer)] k =
      true := by
    simp only [inAllKeysets, List.all_eq_true]
    intro t ht
    rw [List.mem_singleton] at ht
    subst ht
    exact hhk
  have hkids : dispatchKids f
      [FArg.val (.tree (.mk ct dt (.cons k (.arr a) .nil)))]
      [.mk ct dt (.cons k (.arr a) .nil)] (.cons k (.arr a) .nil) =
      .ok (.cons k (.arr r) .nil) := by
    rw [dispatchKids]
    rw [if_pos hin]
    rw [hstep, bindOk, dispatchKids, bindOk]
  have hct' : ∀ t ∈ [(.mk ct dt (.cons k (.arr a) .nil) : Tainer)],
      t.ct = Tainer.ct (.mk ct dt (.cons k (.arr a) .nil)) := by
    intro t ht
    rw [List.mem_singleton] at ht
    rw [ht]
  have hsub' : ∀ t ∈ [(.mk ct dt (.cons k (.arr a) .nil) : Tainer)],
      keysSubset t (.mk ct dt (.cons k (.arr a) .nil)) = true := by
    intro t ht
    rw [List.mem_singleton] at ht
    rw [ht]
    exact keysSubset_self _
  have hcompat := checkArgCompat_ok _ _ hct' hsub'
  have hmk : mkFromContents ct none (.cons k (.arr r) .nil) =
      .ok (.mk ct none (.cons k (.arr r) .nil)) := by
    refine mkFromContents_eq ct none _ ?_ ?_
    · intro hct
      rw [hcanon hct]
      rw [Kids.listCanonical]
      simp [Kids.listCanonical]
    · intro _
      cases k with
      | intK n => simp [Kids.keysContainTuple]
      | strK s => simp [Kids.keysContainTuple]
      | noneK => simp [PyKey.isRegular] at hreg
      | tupleK xs => simp [PyKey.isRegular] at hreg
  rw [applyFunc]
  simp only [hscan]
  rw [manageFuncCall]
  simp only [hscan]
  have hmax : maxByLen (.mk ct dt (.cons k (.arr a) .nil) : Tainer) [] =
      .mk ct dt (.cons k (.arr a) .nil) := by rw [maxByLen]
  simp only [hmax, hcompat, bindOk, Tainer.kids, hkids, Tainer.ct, hmk,
    mapOk]

/-- Dispatch of a reshape-style call on a one-leaf shape tree: the whole
first array argument is passed through to the single per-key call together
with that key's shape leaf. -/
theorem applyFunc_single_binary (f : LeafFn) (ct : CType)
    (dt : Option DType) (k : PyKey) (b : Arr) (s : Arr) (r : Arr)
    (hreg : k.isRegular = true) (hcanon : ct = .listT → k = .intK 0)
    (hf : f [.val (.arr b), .val (.arr s)] = .ok r) :
    applyFunc f [.val (.arr b),
        .val (.tree (.mk ct dt (.cons k (.arr s) .nil)))] =
      .ok (.tree (.mk ct none (.cons k (.arr r) .nil))) := by
  have hscan : listTainersInArgs
      [FArg.val (.arr b),
        FArg.val (.tree (.mk ct dt (.cons k (.arr s) .nil)))] =
      [.mk ct dt (.cons k (.arr s) .nil)] := by simp
  have hlook : Tainer.lookup (.mk ct dt (.cons k (.arr s) .nil)) k =
      some (.arr s) := by
    rw [Tainer.lookup, Tainer.kids, Kids.lookup, if_pos rfl]
  have hhk : Tainer.hasKey (.mk ct dt (.cons k (.arr s) .nil)) k = true := by
    rw [Tainer.hasKey, Tainer.kids, Kids.hasKey, Kids.lookup, if_pos rfl]
    rfl
  have hprep : prepareFuncArgs
      [FArg.val (.arr b),
        FArg.val (.tree (.mk ct dt (.cons k (.arr s) .nil)))] k =
      .ok [FArg.val (.arr b), FArg.val (.arr s)] := by
    rw [prepareFuncArgs]
    rw [prepareFuncArgs]
    rw [if_pos hhk]
    rw [getItem_regular_key hreg hlook, bindOk]
    rw [prepareFuncArgs]
    rw [bindOk, bindOk]
    all_goals simp
  have hsc2 : listTainersInArgs [FArg.val (.arr b), FArg.val (.arr s)] =
      [] := by simp
  have hlt : fargsDepth [FArg.val (.arr b), FArg.val (.arr s)] <
      fargsDepth [FArg.val (.arr b),
        FArg.val (.tree (.mk ct dt (.cons k (.arr s) .nil)))] := by
    simp [fargsDepth, fargDepth, nodeDepth, tainerDepth, kidsDepth]
  have hstep : dispatchStep f
      [FArg.val (.arr b),
        FArg.val (.tree (.mk ct dt (.cons k (.arr s) .nil)))] k =
      .ok (.arr r) := by
    rw [dispatchStep, hprep, bindOk, dif_pos hlt]
    rw [applyFunc]
    simp only [hsc2, hf, mapOk]
  have hin : inAllKeysets [(.mk ct dt (.cons k (.arr s) .nil) : Tainer)] k =
      true := by
    simp only [inAllKeysets, List.all_eq_true]
    intro t ht
    rw [List.mem_singleton] at ht
    subst ht
    exact hhk
  have hkids : dispatchKids f
      [FArg.val (.arr b),
        FArg.val (.tree (.mk ct dt (.cons k (.arr s) .nil)))]
      [.mk ct dt (.cons k (.arr s) .nil)] (.cons k (.arr s) .nil) =
      .ok (.cons k (.arr r) .nil) := by
    rw [dispatchKids]
    rw [if_pos hin]
    rw [hstep, bindOk, dispatchKids, bindOk]
  have hct' : ∀ t ∈ [(.mk ct dt (.cons k (.arr s) .nil) : Tainer)],
      t.ct = Tainer.ct (.mk ct dt (.cons k (.arr s) .nil)) := by
    intro t ht
    rw [List.mem_singleton] at ht
    rw [ht]
  have hsub' : ∀ t ∈ [(.mk ct dt (.cons k (.arr s) .nil) : Tainer)],
      keysSubset t (.mk ct dt (.cons k (.arr s) .nil)) = true := by
    intro t ht
    rw [List.mem_singleton] at ht
    rw [ht]
    exact keysSubset_self _
  have hcompat := checkArgCompat_ok _ _ hct' hsub'
  have hmk : mkFromContents ct none (.cons k (.arr r) .nil) =
      .ok (.mk ct none (.cons k (.arr r) .nil)) := by
    refine mkFromContents_eq ct none _ ?_ ?_
    · intro hct
      rw [hcanon hct]
      simp [Kids.listCanonical]
    · intro _
      cases k with
      | intK n => simp [Kids.keysContainTuple]
      | strK s => simp [Kids.keysContainTuple]
      | noneK => simp [PyKey.isRegular] at hreg
      | tupleK xs => simp [PyKey.isRegular] at hreg
  rw [applyFunc]
  simp only [hscan]
  rw [manageFuncCall]
  simp only [hscan]
  have hmax : maxByLen (.mk ct dt (.cons k (.arr s) .nil) : Tainer) [] =
      .mk ct dt (.cons k (.arr s) .nil) := by rw [maxByLen]
  simp only [hmax, hcompat, bindOk, Tainer.kids, hkids, Tainer.ct, hmk,
    mapOk]

/-- C4 as amended: the round trip `reshape(flatten(T), shape(T))` passes
the whole flat array to every leaf's reshape, so it reproduces `T`'s leaf
values and shapes exactly when `T` consists of a single leaf: for every
one-leaf tree (with a well-formed leaf and a regular key) the round trip
returns the tree with the original leaf array. -/
theorem c4_flatten_reshape_roundtrip_amended (ct : CType)
    (dt : Option DType) (k : PyKey) (a : Arr) (hwf : a.WF)
    (hreg : k.isRegular = true) (hcanon : ct = .listT → k = .intK 0) :
    ∃ flat sh,
      Tainer.flatten (.mk ct dt (.cons k (.arr a) .nil)) = .ok flat ∧
      flat.data = a.data ∧
      shapeT (.mk ct dt (.cons k (.arr a) .nil)) = .ok sh ∧
      reshapeDispatch flat sh =
        .ok (.tree (.mk ct none (.cons k (.arr a) .nil))) := by
  have hravel : ravelF [FArg.val (.arr a)] =
      .ok ⟨[a.data.length], a.data⟩ := by
    rw [ravelF]
    rw [arrRavel]
  have h1 := applyFunc_single_unary ravelF ct dt k a
    ⟨[a.data.length], a.data⟩ hreg hcanon hravel
  have hsqueeze : squeezeF [FArg.val (.arr ⟨[a.data.length], a.data⟩)] =
      .ok ⟨[a.data.length].filter (· ≠ 1), a.data⟩ := by
    rw [squeezeF]
    rw [arrSqueeze]
  have h2 := applyFunc_single_unary squeezeF ct none k
    ⟨[a.data.length], a.data⟩ ⟨[a.data.length].filter (· ≠ 1), a.data⟩
    hreg hcanon hsqueeze
  have hflat : Tainer.flatten (.mk ct dt (.cons k (.arr a) .nil)) =
      .ok ⟨[a.data.length], a.data⟩ := by
    rw [Tainer.flatten, h1, bindOk, h2, bindOk]
    simp only [listArraysT, listArraysK]
    by_cases hlen : a.data.length = 1
    · simp [hlen, List.mapM, List.mapM.loop, List.filter]
    · simp [hlen, List.mapM, List.mapM.loop, List.filter]
  have hshape : shapeT (.mk ct dt (.cons k (.arr a) .nil)) =
      .ok (.mk ct none (.cons k
        (.arr ⟨[a.shape.length], a.shape.map Int.ofNat⟩) .nil)) := by
    have hnil : shapeKids .nil = .ok .nil := by rw [shapeKids]
    have hk1 : shapeKids (.cons k (.arr a) .nil) =
        .ok (.cons k (.arr ⟨[a.shape.length], a.shape.map Int.ofNat⟩)
          .nil) := by
      rw [shapeKids]
      simp only [hnil, bindOk]
    rw [shapeT]
    rw [hk1, bindOk]
  have hresh : reshapeF [FArg.val (.arr ⟨[a.data.length], a.data⟩),
      FArg.val (.arr ⟨[a.shape.length], a.shape.map Int.ofNat⟩)] =
      .ok a := by
    have hmaps : (a.shape.map Int.ofNat).map Int.toNat = a.shape := by
      rw [List.map_map]
      have hco : Int.toNat ∘ Int.ofNat = id := by
        funext n
        simp [Function.comp]
      rw [hco, List.map_id]
    have hwf' : a.data.length = prodList a.shape := hwf
    rw [reshapeF]
    simp only [hmaps]
    rw [arrReshape]
    rw [if_pos (show ((⟨[a.data.length], a.data⟩ : Arr)).data.length =
      prodList a.shape from hwf')]
  have h3 := applyFunc_single_binary reshapeF ct none k
    ⟨[a.data.length], a.data⟩ ⟨[a.shape.length], a.shape.map Int.ofNat⟩ a
    hreg hcanon hresh
  exact ⟨⟨[a.data.length], a.data⟩,
    .mk ct none (.cons k (.arr ⟨[a.shape.length], a.shape.map Int.ofNat⟩)
      .nil), hflat, rfl, hshape, h3⟩

/-- C4 witness for the amended claim: the one-leaf tree `{a: [[1,2],[3,4]]}`
round-trips through `flatten` and the dispatched `reshape` back to itself. -/
theorem c4_flatten_reshape_roundtrip_amended_witness :
    ∃ flat sh,
      Tainer.flatten (.mk .dictT none
        (.cons (.strK "a") (.arr ⟨[2, 2], [1, 2, 3, 4]⟩) .nil)) =
        .ok flat ∧
      flat.data = [1, 2, 3, 4] ∧
      shapeT (.mk .dictT none
        (.cons (.strK "a") (.arr ⟨[2, 2], [1, 2, 3, 4]⟩) .nil)) = .ok sh ∧
      reshapeDispatch flat sh =
        .ok (.tree (.mk .dictT none
          (.cons (.strK "a") (.arr ⟨[2, 2], [1, 2, 3, 4]⟩) .nil))) :=
  c4_flatten_reshape_roundtrip_amended .dictT none (.strK "a")
    ⟨[2, 2], [1, 2, 3, 4]⟩ (by decide) (by decide)
    (by intro hct; exact absurd hct (by decide))

/-!
C6: the `unpack`/construction round trip.  `unpack` strips the wrappers
down to raw lists/dicts of leaf arrays; feeding that back to the default
constructor (`init · none`) rebuilds the same tree except that every
`_dtype` attribute is reset to `None` — which the claim does not mention,
since it speaks only of structure and leaf values.
-/

/-- Unpacking preserves which dict keys are tuples. -/
theorem unpackKV_keysContainTuple : ∀ ks : Kids,
    RawKV.keysContainTuple (unpackKV ks) = Kids.keysContainTuple ks
  | .nil => by simp [unpackKV, RawKV.keysContainTuple, Kids.keysContainTuple]
  | .cons k v tl => by
    cases k <;>
      simp [unpackKV, RawKV.keysContainTuple, Kids.keysContainTuple,
        unpackKV_keysContainTuple tl]

mutual
/-- Rebuilding an unpacked data tree through the default constructor
succeeds and yields the tree with every dtype attribute cleared. -/
theorem init_unpack_data :
    ∀ t : Tainer, t.isData = true → init (unpack t) none = .ok t.stripDt
  | .mk .listT dt ks, h => by
    simp only [Tainer.isData, Bool.and_eq_true] at h
    obtain ⟨hcanon, hall⟩ := h
    simp [unpack, init, initList_unpackL_data ks 0 hcanon hall,
      Tainer.stripDt, Except.bind, Except.map]
  | .mk .dictT dt ks, h => by
    simp only [Tainer.isData, Bool.and_eq_true] at h
    obtain ⟨hkt, hall⟩ := h
    have hkt' : Kids.keysContainTuple ks = false := by
      cases hc : Kids.keysContainTuple ks
      · rfl
      · rw [hc] at hkt
        exact absurd hkt (by decide)
    simp [unpack, init, unpackKV_keysContainTuple, hkt',
      initDict_unpackKV_data ks hall, Tainer.stripDt, Except.bind,
      Except.map]

/-- Rebuilding unpacked list contents keyed from position `i`. -/
theorem initList_unpackL_data :
    ∀ (ks : Kids) (i : Nat), ks.listCanonical i = true →
      ks.allData = true → initList (unpackL ks) none i = .ok ks.stripDt
  | .nil, i, _, _ => by simp [unpackL, initList, Kids.stripDt]
  | .cons k v tl, i, hc, ha => by
    simp only [Kids.listCanonical, Bool.and_eq_true, decide_eq_true_eq]
      at hc
    simp only [Kids.allData, Bool.and_eq_true] at ha
    obtain ⟨hk, hc'⟩ := hc
    obtain ⟨hv, ha'⟩ := ha
    subst hk
    simp [unpackL, initList, convertChild_unpackNode_data v hv,
      initList_unpackL_data tl (i + 1) hc' ha', Kids.stripDt, Except.bind]

/-- Rebuilding unpacked dict contents, in order. -/
theorem initDict_unpackKV_data :
    ∀ ks : Kids, ks.allData = true →
      initDict (unpackKV ks) none = .ok ks.stripDt
  | .nil, _ => by simp [unpackKV, initDict, Kids.stripDt]
  | .cons k v tl, ha => by
    simp only [Kids.allData, Bool.and_eq_true] at ha
    obtain ⟨hv, ha'⟩ := ha
    simp [unpackKV, initDict, convertChild_unpackNode_data v hv,
      initDict_unpackKV_data tl ha', Kids.stripDt, Except.bind]

/-- Rebuilding an unpacked data child. -/
theorem convertChild_unpackNode_data :
    ∀ v : Node, v.isData = true →
      convertChild (unpackNode v) none = .ok v.stripDt
  | .arr a, _ => by simp [unpackNode, convertChild, Node.stripDt]
  | .raw i, h => by simp [Node.isData] at h
  | .tree (.mk .listT dt ks), h => by
    simp only [Node.isData] at h
    have hinit := init_unpack_data (.mk .listT dt ks) h
    rw [unpack] at hinit
    simp [unpackNode, unpack, convertChild, hinit, Node.stripDt,
      Except.bind, Except.map]
  | .tree (.mk .dictT dt ks), h => by
    simp only [Node.isData] at h
    have hinit := init_unpack_data (.mk .dictT dt ks) h
    rw [unpack] at hinit
    simp [unpackNode, unpack, convertChild, hinit, Node.stripDt,
      Except.bind, Except.map]
end

mutual
/-- A tree and its dtype-stripped form agree in structure and leaves. -/
theorem structLeafEq_stripDt_T : ∀ t : Tainer,
    structLeafEqT t t.stripDt = true
  | .mk ct dt ks => by
    simp [structLeafEqT, Tainer.stripDt, structLeafEq_stripDt_K ks]

/-- Contents and their dtype-stripped forms agree pairwise. -/
theorem structLeafEq_stripDt_K : ∀ ks : Kids,
    structLeafEqK ks ks.stripDt = true
  | .nil => by simp [structLeafEqK, Kids.stripDt]
  | .cons k v tl => by
    simp [structLeafEqK, Kids.stripDt, structLeafEq_stripDt_N v,
      structLeafEq_stripDt_K tl]

/-- A child and its dtype-stripped form agree in structure and leaves. -/
theorem structLeafEq_stripDt_N : ∀ v : Node,
    structLeafEqN v v.stripDt = true
  | .arr a => by simp [structLeafEqN, Node.stripDt]
  | .raw i => by simp [structLeafEqN, Node.stripDt]
  | .tree t => by
    simp [structLeafEqN, Node.stripDt, structLeafEq_stripDt_T t]
end

/-- C6: for every data Container Tree `T` (the trees the construction
layer produces: leaves are arrays, list-like nodes are keyed by
consecutive positions, dict-like nodes have no tuple key), passing
`unpack(T)` back through the default constructor succeeds and returns
`T` with its dtype attributes cleared — a tree equal to `T` in keying
mode and key set at every node and in every leaf array value. -/
theorem c6_unpack_init_roundtrip (t : Tainer) (h : t.isData = true) :
    init (unpack t) none = .ok t.stripDt ∧
      structLeafEqT t t.stripDt = true :=
  ⟨init_unpack_data t h, structLeafEq_stripDt_T t⟩

/-- C6 witness: the dict tree `{a: [1,2], b: [[7]]}` (with dtypes set at
both levels, `b` a nested list-like tree) round-trips through `unpack`
and the default constructor to the same structure and leaves, dtypes
cleared. -/
theorem c6_unpack_init_roundtrip_witness :
    init (unpack (.mk .dictT (some "float32")
        (.cons (.strK "a") (.arr ⟨[2], [1, 2]⟩)
          (.cons (.strK "b")
            (.tree (.mk .listT (some "int32")
              (.cons (.intK 0) (.arr ⟨[1], [7]⟩) .nil))) .nil)))) none =
      .ok (.mk .dictT none
        (.cons (.strK "a") (.arr ⟨[2], [1, 2]⟩)
          (.cons (.strK "b")
            (.tree (.mk .listT none
              (.cons (.intK 0) (.arr ⟨[1], [7]⟩) .nil))) .nil))) ∧
    structLeafEqT
        (.mk .dictT (some "float32")
          (.cons (.strK "a") (.arr ⟨[2], [1, 2]⟩)
            (.cons (.strK "b")
              (.tree (.mk .listT (some "int32")
                (.cons (.intK 0) (.arr ⟨[1], [7]⟩) .nil))) .nil)))
        (.mk .dictT none
          (.cons (.strK "a") (.arr ⟨[2], [1, 2]⟩)
            (.cons (.strK "b")
              (.tree (.mk .listT none
                (.cons (.intK 0) (.arr ⟨[1], [7]⟩) .nil))) .nil))) =
      true := by
  have h := c6_unpack_init_roundtrip
    (.mk .dictT (some "float32")
      (.cons (.strK "a") (.arr ⟨[2], [1, 2]⟩)
        (.cons (.strK "b")
          (.tree (.mk .listT (some "int32")
            (.cons (.intK 0) (.arr ⟨[1], [7]⟩) .nil))) .nil)))
    (by simp [Kids.keysContainTuple])
  have hstrip : Tainer.stripDt (.mk .dictT (some "float32")
      (.cons (.strK "a") (.arr ⟨[2], [1, 2]⟩)
        (.cons (.strK "b")
          (.tree (.mk .listT (some "int32")
            (.cons (.intK 0) (.arr ⟨[1], [7]⟩) .nil))) .nil))) =
      (.mk .dictT none
        (.cons (.strK "a") (.arr ⟨[2], [1, 2]⟩)
          (.cons (.strK "b")
            (.tree (.mk .listT none
              (.cons (.intK 0) (.arr ⟨[1], [7]⟩) .nil))) .nil))) := by
    simp
  exact ⟨hstrip ▸ h.1, hstrip ▸ h.2⟩

end Arraytainers
